import Mathlib

/-!
Shallow embedding of the module management subsystem of the ez-tauri CLI
(source file: the module commands module, `installModule` / `uninstallModule` /
`configureModule` / `syncModules` and their helpers).

Strings of the JavaScript source are modelled as `List Char`.  The relevant
parts of the filesystem are modelled explicitly in a state record `St`:
the persisted `module_config.json`, the existence of `src-tauri/src`, the set of
per-module directories under `src-tauri/src/modules`, and the contents of
`Cargo.toml`, `lib.rs` and `modules/mod.rs`.  The read-only modules directory
(manifests) is an environment `Env`.  Filesystem write errors are not modelled
(writes succeed), and console logging is not modelled.
-/

namespace ModuleCli

/-- Characters of a JavaScript string, modelled as a list of characters. -/
abbrev Str := List Char

/-- One entry of a manifest's `dependencies` array: `{module_id, version_req, optional}`. -/
structure Dep where
  module_id : Str
  version_req : Str
  optional : Bool
deriving DecidableEq

/-- One entry of a manifest's `config_schema` map (`field_type` is the raw string
the code switches on; display-only fields such as `description` are omitted). -/
structure SchemaEntry where
  field_type : Str
  required : Bool
deriving DecidableEq

/-- A module manifest (`module.json`).  Display-only metadata (`description`,
`version`, `category`, `authors`, `license`, `commands`, `tags`) is omitted:
the command logic reads only `can_disable`, `dependencies` and `config_schema`
(`name` appears in success messages only and is kept for completeness). -/
structure Manifest where
  name : Str
  can_disable : Bool
  dependencies : List Dep
  config_schema : List (Str × SchemaEntry)
deriving DecidableEq

/-- A stored configuration value.  A number is represented by the numeric
literal prefix that `parseFloat` consumed (the claims in this development only
depend on whether parsing succeeds and on which literal was parsed). -/
inductive Value where
  | bool (b : Bool)
  | num (lit : Str)
  | str (s : Str)
deriving DecidableEq

/-- One entry of the persisted `module_config.json` map. -/
structure ConfigEntry where
  module_id : Str
  enabled : Bool
  config : List (Str × Value)
  dependency_overrides : List (Str × Str)
deriving DecidableEq

/-- Contents of the persisted config file: either unparseable JSON or a map,
modelled as an association list in JavaScript object insertion order
(`Object.keys` iteration order). -/
inductive ConfigFile where
  | malformed
  | wellFormed (entries : List (Str × ConfigEntry))
deriving DecidableEq

/-- The mutable filesystem state the commands read and write.
`installedDirs` is the set (as a list) of per-module subdirectories present
under `src-tauri/src/modules`; `srcExists` models existence of `src-tauri/src`;
`cargoToml`, `libRs`, `modRs` are file contents (`none` = file absent). -/
structure St where
  configFile : Option ConfigFile
  srcExists : Bool
  installedDirs : List Str
  cargoToml : Option Str
  libRs : Option Str
  modRs : Option Str
deriving DecidableEq

/-- The read-only modules directory: id and parsed manifest of every
subdirectory with a parseable `module.json`, in directory-scan order. -/
structure Env where
  modules : List (Str × Manifest)
deriving DecidableEq

/-- JavaScript object property lookup on an association list. -/
def alookup {α : Type} : List (Str × α) → Str → Option α
  | [], _ => none
  | (k, v) :: t, key => if k = key then some v else alookup t key

/-! ## String helpers used by the synchronizer -/

/-- JavaScript regex `\s` on the characters occurring in the files at hand
(ASCII whitespace). -/
def jsWs (c : Char) : Bool :=
  c = ' ' || c = '\t' || c = '\n' || c = '\r' || c = '\x0b' || c = '\x0c'

/-- Leftmost occurrence search: splits `s = p ++ r` with `pat` a prefix of `r`
at the first such position (the semantics of `String.prototype.indexOf` and of
anchoring a regex literal at its leftmost match). -/
def findSub (pat : Str) : Str → Option (Str × Str)
  | [] => if pat.isPrefixOf ([] : Str) then some ([], []) else none
  | c :: cs =>
    if pat.isPrefixOf (c :: cs) then some ([], c :: cs)
    else
      match findSub pat cs with
      | some (p, r) => some (c :: p, r)
      | none => none

/-- Leftmost position at which a positional matcher `f` succeeds: returns the
skipped prefix together with `f`'s result there. -/
def findMatch {α : Type} (f : Str → Option α) : Str → Option (Str × α)
  | [] =>
    match f [] with
    | some a => some ([], a)
    | none => none
  | c :: cs =>
    match f (c :: cs) with
    | some a => some ([], a)
    | none =>
      match findMatch f cs with
      | some (p, a) => some (c :: p, a)
      | none => none

/-- The literal `default` of the Cargo.toml features regex. -/
def dfltPat : Str := "default".data

/-- Positional match of `default\s*=\s*\[` (the tail of capture group 1 of the
features regex); returns the matched text and the remainder after the `[`.
Both `\s*` are effectively maximal-munch: `=` and `[` are not whitespace, so the
only viable split consumes the whole whitespace run. -/
def matchDefaultEq (s : Str) : Option (Str × Str) :=
  if dfltPat.isPrefixOf s then
    match (s.drop 7).dropWhile jsWs with
    | e :: t2 =>
      if e = '=' then
        match t2.dropWhile jsWs with
        | b :: t3 =>
          if b = '[' then
            some (dfltPat ++ (s.drop 7).takeWhile jsWs ++ e :: t2.takeWhile jsWs ++ [b], t3)
          else none
        | [] => none
      else none
    | [] => none
  else none

/-- The literal `[features]` of the features regex. -/
def featPat : Str := "[features]".data

/-- The character class `[^\]]` of the features regex. -/
def notRBracket (c : Char) : Bool := decide (c ≠ ']')

/-- Decomposition performed by the regex
`(\[features\][\s\S]*?default\s*=\s*\[)[^\]]*(\])` at its leftmost match:
`content = a ++ mid ++ post` where `a` ends just after the `[` of
`default = [`, `mid` is the current feature list (no `]`), and `post` starts
with the closing `]`.  Because the lazy middle `[\s\S]*?` matches anything,
the leftmost overall match starts at the first `[features]` occurrence, uses
the first `default\s*=\s*\[` after it, and closes at the first `]` after that;
no further backtracking can succeed if this fails. -/
def cargoDecompose (content : Str) : Option (Str × Str × Str) :=
  match findSub featPat content with
  | none => none
  | some (p, q) =>
    match findMatch matchDefaultEq (q.drop 10) with
    | none => none
    | some (m, (d, r)) =>
      let mid := r.takeWhile notRBracket
      match r.dropWhile notRBracket with
      | [] => none
      | rb => some (p ++ featPat ++ m ++ d, mid, rb)

/-- JavaScript `Array.prototype.join` with a separator. -/
def joinSep (sep : Str) : List Str → Str
  | [] => []
  | [x] => x
  | x :: y :: t => x ++ sep ++ joinSep sep (y :: t)

/-- The quoted feature flag `"module-<id>"` for one enabled id. -/
def quoteFlag (id : Str) : Str := '"' :: ("module-".data ++ id ++ ['"'])

/-- The feature list written between `default = [` and `]`. -/
def featureFlags (enabled : List Str) : Str :=
  joinSep ", ".data (enabled.map quoteFlag)

/-- Header of the generated `modules/mod.rs`. -/
def modHeader : Str :=
  ("//! Application modules\n//!\n//! This file is auto-generated by the module management CLI.\n//! Do not edit manually.\n\n").data

/-- One conditionally-compiled module declaration of `modules/mod.rs`. -/
def modDecl (id : Str) : Str :=
  ("#[cfg(feature = \"module-".data) ++ id ++ ("\")]\npub mod ".data) ++ id ++ (";".data)

/-- One conditionally-compiled re-export of `modules/mod.rs`. -/
def modUse (id : Str) : Str :=
  ("#[cfg(feature = \"module-".data) ++ id ++ ("\")]\npub use ".data) ++ id ++ ("::*;".data)

/-- The full generated contents of `modules/mod.rs` for an enabled-id list. -/
def modContent (enabled : List Str) : Str :=
  modHeader ++ joinSep "\n\n".data (enabled.map modDecl) ++ "\n\n".data ++
    joinSep "\n".data (enabled.map modUse) ++ "\n".data

/-- The literal `mod modules` of the lib.rs cleanup regex. -/
def mmPat : Str := "mod modules".data

/-- Positional match of the regex `mod modules;?\n?` (both optional parts are
greedy); returns the remainder after the match. -/
def matchModModules (s : Str) : Option Str :=
  if mmPat.isPrefixOf s then
    let r := s.drop 11
    let r1 := match r with
      | ';' :: t => t
      | _ => r
    match r1 with
    | '\n' :: t => some t
    | _ => some r1
  else none

/-- Fueled worker for the global replacement of `mod modules;?\n?` by the empty
string (scan left to right, never rescanning replaced output — the semantics of
`String.prototype.replace` with the `g` flag).  Each step consumes at least one
character, so fuel equal to the string length always suffices; the fuel only
makes the recursion structural. -/
def removeAllFuel : Nat → Str → Str
  | 0, s => s
  | Nat.succ n, s =>
    match s with
    | [] => []
    | c :: cs =>
      match matchModModules (c :: cs) with
      | some rest => removeAllFuel n rest
      | none => c :: removeAllFuel n cs

/-- Global removal of every `mod modules;?\n?` occurrence from lib.rs. -/
def removeModModules (s : Str) : Str := removeAllFuel s.length s

/-- The insertion anchor searched for in lib.rs. -/
def useAnchor : Str := "use config::AppConfig;".data

/-- The declaration inserted into lib.rs when at least one module is enabled. -/
def modModulesDecl : Str := "mod modules;\n".data

/-- Insertion of `mod modules;\n` before the first `use config::AppConfig;`
occurrence, or at the start if the anchor is absent. -/
def insertDecl (s : Str) : Str :=
  match findSub useAnchor s with
  | some (p, r) => p ++ modModulesDecl ++ r
  | none => modModulesDecl ++ s

/-! ## JavaScript value coercion (`configureModule`) -/

/-- Exponent part accepted by `parseFloat` after the mantissa: `e`/`E`, an
optional sign and at least one digit, otherwise nothing is consumed. -/
def expPart (e : Char) (r : Str) : Str :=
  match r with
  | '+' :: r2 =>
    let d := r2.takeWhile Char.isDigit
    if d = [] then [] else e :: '+' :: d
  | '-' :: r2 =>
    let d := r2.takeWhile Char.isDigit
    if d = [] then [] else e :: '-' :: d
  | _ =>
    let d := r.takeWhile Char.isDigit
    if d = [] then [] else e :: d

/-- JavaScript `parseFloat`: the longest numeric-literal prefix after leading
whitespace (optional sign, digits with an optional fraction, an optional
well-formed exponent, or `Infinity`); `none` exactly when `parseFloat` returns
`NaN`. -/
def jsParseFloat (s : Str) : Option Str :=
  let t := s.dropWhile jsWs
  let sgn : Str :=
    match t with
    | '+' :: _ => ['+']
    | '-' :: _ => ['-']
    | _ => []
  let t1 : Str :=
    match t with
    | '+' :: r => r
    | '-' :: r => r
    | _ => t
  if ("Infinity".data).isPrefixOf t1 then some (sgn ++ "Infinity".data)
  else
    let ip := t1.takeWhile Char.isDigit
    let r1 := t1.dropWhile Char.isDigit
    let fp : Str :=
      match r1 with
      | '.' :: r => '.' :: r.takeWhile Char.isDigit
      | _ => []
    let r2 : Str :=
      match r1 with
      | '.' :: r => r.dropWhile Char.isDigit
      | _ => r1
    if ip = [] && (fp = [] || fp = ['.']) then none
    else
      let ex : Str :=
        match r2 with
        | 'e' :: r => expPart 'e' r
        | 'E' :: r => expPart 'E' r
        | _ => []
      some (sgn ++ ip ++ fp ++ ex)

/-- JavaScript `toLowerCase` on the ASCII strings at hand. -/
def toLowerStr (s : Str) : Str := s.map Char.toLower

/-- Coercion of a raw value string to the schema's declared `field_type`
(`boolean` compares the lowercased value with `true`; `number` fails exactly
when `parseFloat` yields `NaN`; `string` and any unknown type keep the raw
string). -/
def coerceValue (ft : Str) (value : Str) : Option Value :=
  if ft = "boolean".data then some (.bool (decide (toLowerStr value = "true".data)))
  else if ft = "number".data then (jsParseFloat value).map Value.num
  else some (.str value)

/-! ## Configuration store and installed-state inspector -/

/-- The `loadModuleConfig` function: a missing file or unparseable JSON yields
the empty map (the source logs the parse error and returns `{}`). -/
def loadModuleConfig (s : St) : List (Str × ConfigEntry) :=
  match s.configFile with
  | some (ConfigFile.wellFormed l) => l
  | _ => []

/-- Ids of the `getInstalledModules` result: available modules whose per-module
directory exists, in modules-scan order; empty when `src-tauri/src` is absent. -/
def installedIds (env : Env) (s : St) : List Str :=
  if s.srcExists then
    (env.modules.filter (fun p => decide (p.1 ∈ s.installedDirs))).map Prod.fst
  else []

/-- Ids of the enabled entries of a loaded config, in key insertion order
(`Object.keys(config).filter(id => config[id].enabled)`). -/
def enabledIds (cfg : List (Str × ConfigEntry)) : List Str :=
  (cfg.filter (fun p => p.2.enabled)).map Prod.fst

/-! ## Build artifact synchronizer -/

/-- The `updateCargoToml` function: replace the `default = [...]` region of the
features section wholesale with the flags of the given enabled ids; a missing
file or an absent features region leaves the file untouched (logged, no write). -/
def updateCargoToml (s : St) (enabled : List Str) : St :=
  match s.cargoToml with
  | none => s
  | some content =>
    match cargoDecompose content with
    | none => s
    | some (a, _, post) =>
      { s with cargoToml := some (a ++ featureFlags enabled ++ post) }

/-- The `updateModExports` function: strip every `mod modules;?\n?` from lib.rs
and re-insert the declaration before `use config::AppConfig;` when at least one
module is enabled; a missing lib.rs leaves the state untouched. -/
def updateModExports (s : St) (enabled : List Str) : St :=
  match s.libRs with
  | none => s
  | some content =>
    let removed := removeModModules content
    let c2 := if enabled.length = 0 then removed else insertDecl removed
    { s with libRs := some c2 }

/-- The `createModulesModFile` function: with no enabled module the whole
`src-tauri/src/modules` directory is removed (taking every per-module
subdirectory and `mod.rs` with it); otherwise the directory is created and
`mod.rs` regenerated from scratch. -/
def createModulesModFile (s : St) (enabled : List Str) : St :=
  if enabled.length = 0 then
    { s with installedDirs := [], modRs := none }
  else
    { s with srcExists := true, modRs := some (modContent enabled) }

/-- The `copyModuleFiles` function: copy the module's source subtree into
`src-tauri/src/modules/<id>` (creating intermediate directories). -/
def copyModuleFiles (s : St) (id : Str) : St :=
  { s with srcExists := true,
           installedDirs :=
             if id ∈ s.installedDirs then s.installedDirs else s.installedDirs ++ [id] }

/-- The `removeModuleFiles` function: delete `src-tauri/src/modules/<id>`. -/
def removeModuleFiles (s : St) (id : Str) : St :=
  { s with installedDirs := s.installedDirs.filter (fun d => decide (d ≠ id)) }

/-! ## Config map mutation helpers -/

/-- The fresh entry the source creates: `{module_id, enabled:false, config:{}, dependency_overrides:{}}`. -/
def freshEntry (id : Str) : ConfigEntry :=
  { module_id := id, enabled := false, config := [], dependency_overrides := [] }

/-- JavaScript property assignment on the config map: update in place or append. -/
def putKV (l : List (Str × Value)) (k : Str) (v : Value) : List (Str × Value) :=
  if (alookup l k).isSome then l.map (fun p => if p.1 = k then (p.1, v) else p)
  else l ++ [(k, v)]

/-- Create the entry for `id` if absent (`if (!config[moduleId]) config[moduleId] = …`). -/
def ensureEntry (cfg : List (Str × ConfigEntry)) (id : Str) : List (Str × ConfigEntry) :=
  if (alookup cfg id).isSome then cfg else cfg ++ [(id, freshEntry id)]

/-- Net effect of `installModule`'s config mutation: ensure the entry exists,
then set `enabled = true` (position of an existing key is preserved). -/
def setEnabledTrue (cfg : List (Str × ConfigEntry)) (id : Str) : List (Str × ConfigEntry) :=
  match alookup cfg id with
  | none => cfg ++ [(id, { freshEntry id with enabled := true })]
  | some _ => cfg.map (fun p => if p.1 = id then (p.1, { p.2 with enabled := true }) else p)

/-- JavaScript `delete config[id]`. -/
def eraseKey (cfg : List (Str × ConfigEntry)) (id : Str) : List (Str × ConfigEntry) :=
  cfg.filter (fun p => decide (p.1 ≠ id))

/-- The `config[moduleId].config[key] = parsedValue` assignment of `configureModule`. -/
def setConfigValue (cfg : List (Str × ConfigEntry)) (id key : Str) (v : Value) :
    List (Str × ConfigEntry) :=
  cfg.map (fun p => if p.1 = id then (p.1, { p.2 with config := putKV p.2.config key v }) else p)

/-! ## Command orchestrator -/

inductive InstallResult where
  | manifestNotFound
  | alreadyInstalled
  | dependencyMissing (depId : Str)
  | installed
deriving DecidableEq

inductive UninstallResult where
  | manifestNotFound
  | notInstalled
  | protectedModule
  | reverseDependencyExists (dependent : Str)
  | uninstalled
deriving DecidableEq

inductive ConfigureResult where
  | manifestNotFound
  | notInstalled
  | configKeyInvalid
  | valueCoercionError
  | configured
deriving DecidableEq

/-- Satisfaction of one dependency entry: target filesystem-installed and its
config entry enabled (`depInstalled && depConfig?.enabled`). -/
def depSatisfied (cfg : List (Str × ConfigEntry)) (inst : List Str) (d : Dep) : Bool :=
  decide (d.module_id ∈ inst) && ((alookup cfg d.module_id).elim false (fun e => e.enabled))

/-- The first dependency entry at which `installModule`'s check loop fails:
the first non-optional entry whose target is not installed-and-enabled. -/
def firstFailingDep (cfg : List (Str × ConfigEntry)) (inst : List Str) (deps : List Dep) :
    Option Str :=
  (deps.find? (fun d => !d.optional && !depSatisfied cfg inst d)).map (fun d => d.module_id)

/-- The `installModule` command. -/
def installModule (env : Env) (s : St) (id : Str) : InstallResult × St :=
  match alookup env.modules id with
  | none => (.manifestNotFound, s)
  | some man =>
    let inst := installedIds env s
    if id ∈ inst then (.alreadyInstalled, s)
    else
      let cfg := loadModuleConfig s
      match firstFailingDep cfg inst man.dependencies with
      | some depId => (.dependencyMissing depId, s)
      | none =>
        let s1 := copyModuleFiles s id
        let cfg1 := setEnabledTrue cfg id
        let enabled := enabledIds cfg1
        let s2 := updateCargoToml s1 enabled
        let s3 := updateModExports s2 enabled
        let s4 := createModulesModFile s3 enabled
        (.installed, { s4 with configFile := some (.wellFormed cfg1) })

/-- Whether a manifest lists a non-optional dependency on `id`. -/
def hasNonOptDepOn (m : Manifest) (id : Str) : Bool :=
  m.dependencies.any (fun d => !d.optional && decide (d.module_id = id))

/-- The reverse-dependency scan of `uninstallModule`: the first available module
(the scan does not exclude `id` itself) that is enabled and installed and whose
manifest lists a non-optional dependency on `id`. -/
def findDependent (env : Env) (cfg : List (Str × ConfigEntry)) (inst : List Str) (id : Str) :
    Option Str :=
  (env.modules.find? (fun p =>
      ((alookup cfg p.1).elim false (fun e => e.enabled)) && decide (p.1 ∈ inst) &&
        hasNonOptDepOn p.2 id)).map Prod.fst

/-- The `uninstallModule` command (note the source checks installed-ness before
`can_disable`). -/
def uninstallModule (env : Env) (s : St) (id : Str) : UninstallResult × St :=
  match alookup env.modules id with
  | none => (.manifestNotFound, s)
  | some man =>
    let inst := installedIds env s
    if id ∈ inst then
      if man.can_disable then
        let cfg := loadModuleConfig s
        match findDependent env cfg inst id with
        | some dep => (.reverseDependencyExists dep, s)
        | none =>
          let s1 := removeModuleFiles s id
          let cfg1 := eraseKey cfg id
          let enabled := enabledIds cfg1
          let s2 := updateCargoToml s1 enabled
          let s3 := updateModExports s2 enabled
          let s4 := createModulesModFile s3 enabled
          (.uninstalled, { s4 with configFile := some (.wellFormed cfg1) })
      else (.protectedModule, s)
    else (.notInstalled, s)

/-- The `configureModule` command.  On the failure paths nothing is persisted:
the in-memory entry creation is discarded, so the returned state is unchanged. -/
def configureModule (env : Env) (s : St) (id key value : Str) : ConfigureResult × St :=
  match alookup env.modules id with
  | none => (.manifestNotFound, s)
  | some man =>
    if id ∈ installedIds env s then
      let cfg := ensureEntry (loadModuleConfig s) id
      match alookup man.config_schema key with
      | none => (.configKeyInvalid, s)
      | some schema =>
        match coerceValue schema.field_type value with
        | none => (.valueCoercionError, s)
        | some v =>
          let cfg1 := setConfigValue cfg id key v
          (.configured, { s with configFile := some (.wellFormed cfg1) })
    else (.notInstalled, s)

/-- The `syncModules` command: regenerate the two build artifacts from the
persisted config alone; the config file itself is not written. -/
def syncModules (s : St) : St :=
  let cfg := loadModuleConfig s
  let enabled := enabledIds cfg
  let s1 := updateCargoToml s enabled
  let s2 := updateModExports s1 enabled
  createModulesModFile s2 enabled

/-! ## Command traces -/

/-- Whether the persisted config has an entry for `X`. -/
def hasEntry (X : Str) (s : St) : Bool :=
  match s.configFile with
  | some (ConfigFile.wellFormed l) => (alookup l X).isSome
  | _ => false

/-- One user-facing command invocation. -/
inductive Cmd where
  | install (id : Str)
  | uninstall (id : Str)
  | configure (id key value : Str)
  | sync
  | listCmd
  | info (id : Str)
deriving DecidableEq

/-- The state transition of one command (`list` and `info` only read). -/
def stepCmd (env : Env) (s : St) : Cmd → St
  | .install id => (installModule env s id).2
  | .uninstall id => (uninstallModule env s id).2
  | .configure id k v => (configureModule env s id k v).2
  | .sync => syncModules s
  | .listCmd => s
  | .info _ => s

/-- Execution of a command sequence. -/
def runCmds (env : Env) (s : St) : List Cmd → St
  | [] => s
  | c :: cs => runCmds env (stepCmd env s c) cs

/-- Bookkeeping for the config-entry lifecycle of module `X`: a completed
`install X` sets the flag, a completed `uninstall X` clears it, nothing else
touches it. -/
def justUpdate (env : Env) (X : Str) (s : St) (c : Cmd) (b : Bool) : Bool :=
  match c with
  | .install id => if id = X ∧ (installModule env s id).1 = .installed then true else b
  | .uninstall id => if id = X ∧ (uninstallModule env s id).1 = .uninstalled then false else b
  | _ => b

/-- The lifecycle flag of module `X` tracked along a command sequence. -/
def runJustified (env : Env) (X : Str) (s : St) : List Cmd → Bool → Bool
  | [], b => b
  | c :: cs, b => runJustified env X (stepCmd env s c) cs (justUpdate env X s c b)

/-! ## Pure reformulations used by the proofs -/

/-- Action of `updateCargoToml` on the Cargo.toml contents alone. -/
def applyCargo (c : Option Str) (enabled : List Str) : Option Str :=
  match c with
  | none => none
  | some content =>
    match cargoDecompose content with
    | none => some content
    | some (a, _, post) => some (a ++ featureFlags enabled ++ post)

/-- Action of `updateModExports` on the lib.rs contents alone. -/
def applyLib (c : Option Str) (enabled : List Str) : Option Str :=
  match c with
  | none => none
  | some content =>
    let removed := removeModModules content
    some (if enabled.length = 0 then removed else insertDecl removed)

/-- The state produced by the mutating tail of `installModule` (reached only
after all validation has passed). -/
def installSuccessState (s : St) (id : Str) : St :=
  let cfg := loadModuleConfig s
  let s1 := copyModuleFiles s id
  let cfg1 := setEnabledTrue cfg id
  let enabled := enabledIds cfg1
  let s2 := updateCargoToml s1 enabled
  let s3 := updateModExports s2 enabled
  let s4 := createModulesModFile s3 enabled
  { s4 with configFile := some (.wellFormed cfg1) }

/-- The state produced by the mutating tail of `uninstallModule`. -/
def uninstallSuccessState (s : St) (id : Str) : St :=
  let cfg := loadModuleConfig s
  let s1 := removeModuleFiles s id
  let cfg1 := eraseKey cfg id
  let enabled := enabledIds cfg1
  let s2 := updateCargoToml s1 enabled
  let s3 := updateModExports s2 enabled
  let s4 := createModulesModFile s3 enabled
  { s4 with configFile := some (.wellFormed cfg1) }

/-- Reachability invariant of command traces from a fresh project: every
present per-module directory has a config entry. -/
def Inv (s : St) : Prop := ∀ d ∈ s.installedDirs, hasEntry d s = true

/-! ## Concrete fixtures for witnesses and counterexamples -/

/-- Witness Cargo.toml contents with a well-formed features region. -/
def wCargo : Str := "[features]\ndefault = [\"module-old\"]\nserde = []\n".data

/-- Witness lib.rs contents containing the insertion anchor. -/
def wLib : Str := "use config::AppConfig;\nfn run();\n".data

/-- Witness manifest: `database`, no dependencies, three schema keys. -/
def wDB : Manifest :=
  { name := "Database".data, can_disable := true, dependencies := [],
    config_schema :=
      [("port".data, { field_type := "number".data, required := true }),
       ("host".data, { field_type := "string".data, required := false }),
       ("ssl".data, { field_type := "boolean".data, required := false })] }

/-- Witness manifest: `auth`, non-optional dependency on `database` plus an
optional dependency on a module that does not exist. -/
def wAuth : Manifest :=
  { name := "Auth".data, can_disable := true,
    dependencies :=
      [{ module_id := "database".data, version_req := "*".data, optional := false },
       { module_id := "ldap".data, version_req := "*".data, optional := true }],
    config_schema := [] }

/-- Witness registry holding `auth` and `database` (scan order: auth first). -/
def wEnv : Env := { modules := [("auth".data, wAuth), ("database".data, wDB)] }

/-- Witness manifest of a protected (`can_disable = false`) module. -/
def wProt : Manifest :=
  { name := "Core".data, can_disable := false, dependencies := [], config_schema := [] }

/-- Witness registry holding only the protected module `core`. -/
def wEnvProt : Env := { modules := [("core".data, wProt)] }

/-- Witness manifest of a module with a non-optional dependency on itself. -/
def wSelf : Manifest :=
  { name := "Selfy".data, can_disable := true,
    dependencies := [{ module_id := "selfy".data, version_req := "*".data, optional := false }],
    config_schema := [] }

/-- Witness registry holding only the self-dependent module. -/
def wEnvSelf : Env := { modules := [("selfy".data, wSelf)] }

/-- Fresh generated project: no config file, no installed module directories. -/
def wSt0 : St :=
  { configFile := none, srcExists := true, installedDirs := [],
    cargoToml := some wCargo, libRs := some wLib, modRs := none }

/-- State after `install database` on the fresh project. -/
def wStDB : St := (installModule wEnv wSt0 ("database".data)).2

/-- State after `install database` then `install auth`. -/
def wStBoth : St := (installModule wEnv wStDB ("auth".data)).2

/-- Fresh project with the protected module's directory present but no config. -/
def wStProtInst : St := { wSt0 with installedDirs := ["core".data] }

/-- Project with the self-dependent module installed and enabled. -/
def wStSelf : St :=
  { wSt0 with installedDirs := ["selfy".data],
              configFile := some (.wellFormed
                [("selfy".data, { freshEntry ("selfy".data) with enabled := true })]) }

/-- Config listing `database` before `auth` (both enabled). -/
def wCfgBA : List (Str × ConfigEntry) :=
  [("database".data, { freshEntry ("database".data) with enabled := true }),
   ("auth".data, { freshEntry ("auth".data) with enabled := true })]

/-- Config listing `auth` before `database` (both enabled). -/
def wCfgAB : List (Str × ConfigEntry) :=
  [("auth".data, { freshEntry ("auth".data) with enabled := true }),
   ("database".data, { freshEntry ("database".data) with enabled := true })]

/-- Fresh project carrying the `database`-first config. -/
def wStBA : St := { wSt0 with configFile := some (.wellFormed wCfgBA) }

/-- Fresh project carrying the `auth`-first config. -/
def wStAB : St := { wSt0 with configFile := some (.wellFormed wCfgAB) }

/-- Project whose config enables a module id containing the character `]`. -/
def wStBracket : St :=
  { wSt0 with configFile := some (.wellFormed
      [("a]".data, { freshEntry ("a]".data) with enabled := true })]) }

/-- Project with a module directory present but an empty enabled set. -/
def wStDirOnly : St := { wSt0 with installedDirs := ["database".data] }

/-- Project whose config file holds malformed JSON. -/
def wStMal : St := { wSt0 with configFile := some ConfigFile.malformed }

/-! ## Association-list lemmas -/

theorem alookup_cons {α : Type} (k : Str) (v : α) (t : List (Str × α)) (X : Str) :
    alookup ((k, v) :: t) X = if k = X then some v else alookup t X := rfl

theorem alookup_append {α : Type} (l1 l2 : List (Str × α)) (X : Str) :
    alookup (l1 ++ l2) X =
      match alookup l1 X with
      | some v => some v
      | none => alookup l2 X := by
  induction l1 with
  | nil => simp [alookup]
  | cons h t ih =>
    obtain ⟨k, v⟩ := h
    by_cases hk : k = X
    · simp [alookup, hk]
    · simp [alookup, hk, ih]

theorem alookup_mapIf {α : Type} (l : List (Str × α)) (id : Str) (g : α → α) (X : Str) :
    alookup (l.map (fun p => if p.1 = id then (p.1, g p.2) else p)) X =
      if X = id then (alookup l X).map g else alookup l X := by
  induction l with
  | nil => simp [alookup]
  | cons hd t ih =>
    obtain ⟨k, v⟩ := hd
    by_cases hki : k = id
    · subst hki
      have hhead : (if (k, v).1 = k then ((k, v).1, g (k, v).2) else (k, v))
          = (k, g v) := by simp
      rw [List.map_cons, hhead, alookup_cons, alookup_cons]
      by_cases hkx : k = X
      · subst hkx
        simp
      · simp only [if_neg hkx]
        exact ih
    · have hhead : (if (k, v).1 = id then ((k, v).1, g (k, v).2) else (k, v))
          = (k, v) := by simp [hki]
      rw [List.map_cons, hhead, alookup_cons, alookup_cons]
      by_cases hkx : k = X
      · subst hkx
        simp [hki]
      · simp only [if_neg hkx]
        exact ih

theorem alookup_map_setEnabled (cfg : List (Str × ConfigEntry)) (id X : Str) :
    alookup (cfg.map (fun p => if p.1 = id then (p.1, { p.2 with enabled := true }) else p)) X =
      if X = id then (alookup cfg X).map (fun e => { e with enabled := true })
      else alookup cfg X := by
  have h := alookup_mapIf cfg id (fun e => { e with enabled := true }) X
  simpa using h

theorem alookup_map_setConfig (cfg : List (Str × ConfigEntry)) (id key : Str) (v : Value)
    (X : Str) :
    alookup (cfg.map (fun p =>
        if p.1 = id then (p.1, { p.2 with config := putKV p.2.config key v }) else p)) X =
      if X = id then (alookup cfg X).map (fun e => { e with config := putKV e.config key v })
      else alookup cfg X := by
  have h := alookup_mapIf cfg id (fun e => { e with config := putKV e.config key v }) X
  simpa using h

theorem alookup_map_putKV (l : List (Str × Value)) (k : Str) (v : Value) (X : Str) :
    alookup (l.map (fun p => if p.1 = k then (p.1, v) else p)) X =
      if X = k then (alookup l X).map (fun _ => v) else alookup l X := by
  have h := alookup_mapIf l k (fun _ => v) X
  simpa using h

theorem alookup_mem {α : Type} (l : List (Str × α)) (X : Str) (v : α)
    (h : alookup l X = some v) : (X, v) ∈ l := by
  induction l with
  | nil => simp [alookup] at h
  | cons hd t ih =>
    obtain ⟨k, w⟩ := hd
    by_cases hk : k = X
    · subst hk
      simp [alookup] at h
      simp [h]
    · simp [alookup, hk] at h
      simp [ih h]

theorem alookup_setEnabledTrue_self (cfg : List (Str × ConfigEntry)) (id : Str) :
    (alookup (setEnabledTrue cfg id) id).isSome = true := by
  unfold setEnabledTrue
  cases h : alookup cfg id with
  | none =>
    rw [alookup_append, h]
    simp [alookup]
  | some e =>
    rw [alookup_map_setEnabled]
    simp [h]

theorem alookup_setEnabledTrue_other (cfg : List (Str × ConfigEntry)) (id X : Str)
    (hne : X ≠ id) : alookup (setEnabledTrue cfg id) X = alookup cfg X := by
  unfold setEnabledTrue
  cases h : alookup cfg id with
  | none =>
    rw [alookup_append]
    cases hx : alookup cfg X <;> simp [alookup, Ne.symm hne]
  | some e =>
    rw [alookup_map_setEnabled]
    simp [hne]

theorem alookup_eraseKey_self (cfg : List (Str × ConfigEntry)) (id : Str) :
    alookup (eraseKey cfg id) id = none := by
  induction cfg with
  | nil => simp [eraseKey, alookup]
  | cons hd t ih =>
    obtain ⟨k, v⟩ := hd
    by_cases hk : k = id
    · simpa [eraseKey, List.filter_cons, hk] using ih
    · simpa [eraseKey, List.filter_cons, alookup_cons, hk] using ih

theorem alookup_eraseKey_other (cfg : List (Str × ConfigEntry)) (id X : Str)
    (hne : X ≠ id) : alookup (eraseKey cfg id) X = alookup cfg X := by
  induction cfg with
  | nil => simp [eraseKey, alookup]
  | cons hd t ih =>
    obtain ⟨k, v⟩ := hd
    by_cases hk : k = id
    · subst hk
      have hkX : ¬ (k = X) := fun h => hne h.symm
      simpa [eraseKey, List.filter_cons, alookup_cons, hkX] using ih
    · by_cases hx : k = X
      · subst hx
        simp [eraseKey, List.filter_cons, alookup_cons, hk]
      · simpa [eraseKey, List.filter_cons, alookup_cons, hk, hx] using ih

theorem alookup_ensureEntry_self (cfg : List (Str × ConfigEntry)) (id : Str) :
    (alookup (ensureEntry cfg id) id).isSome = true := by
  unfold ensureEntry
  by_cases h : (alookup cfg id).isSome
  · rw [if_pos h]
    exact h
  · rw [if_neg h, alookup_append, Option.not_isSome_iff_eq_none.mp h]
    simp [alookup]

theorem alookup_ensureEntry_other (cfg : List (Str × ConfigEntry)) (id X : Str)
    (hne : X ≠ id) : alookup (ensureEntry cfg id) X = alookup cfg X := by
  unfold ensureEntry
  by_cases h : (alookup cfg id).isSome
  · simp [h]
  · rw [if_neg h, alookup_append]
    cases hx : alookup cfg X <;> simp [alookup, Ne.symm hne]

theorem alookup_setConfigValue (cfg : List (Str × ConfigEntry)) (id key : Str) (v : Value)
    (X : Str) :
    alookup (setConfigValue cfg id key v) X =
      if X = id then
        (alookup cfg X).map (fun e => { e with config := putKV e.config key v })
      else alookup cfg X :=
  alookup_map_setConfig cfg id key v X

theorem alookup_putKV_self (l : List (Str × Value)) (k : Str) (v : Value) :
    alookup (putKV l k v) k = some v := by
  unfold putKV
  by_cases h : (alookup l k).isSome
  · rw [if_pos h, alookup_map_putKV]
    obtain ⟨w, hw⟩ := Option.isSome_iff_exists.mp h
    simp [hw]
  · rw [if_neg h, alookup_append, Option.not_isSome_iff_eq_none.mp h]
    simp [alookup]

/-! ## Enabled-set lemmas -/

theorem mem_enabledIds_setEnabledTrue (cfg : List (Str × ConfigEntry)) (id : Str) :
    id ∈ enabledIds (setEnabledTrue cfg id) := by
  unfold enabledIds setEnabledTrue
  cases h : alookup cfg id with
  | none =>
    refine List.mem_map.mpr ⟨(id, { freshEntry id with enabled := true }), ?_, rfl⟩
    refine List.mem_filter.mpr ⟨?_, by simp⟩
    simp
  | some e =>
    refine List.mem_map.mpr
      ⟨(id, { e with enabled := true }), ?_, rfl⟩
    refine List.mem_filter.mpr ⟨?_, by simp⟩
    refine List.mem_map.mpr ⟨(id, e), alookup_mem cfg id e h, by simp⟩

theorem enabledIds_setEnabledTrue_length (cfg : List (Str × ConfigEntry)) (id : Str) :
    ¬ (enabledIds (setEnabledTrue cfg id)).length = 0 := by
  intro h
  exact List.ne_nil_of_mem (mem_enabledIds_setEnabledTrue cfg id) (List.length_eq_zero.mp h)

/-! ## Component lemmas for the synchronizer -/

theorem hasEntry_eq (X : Str) (s : St) :
    hasEntry X s = (alookup (loadModuleConfig s) X).isSome := by
  unfold hasEntry loadModuleConfig
  cases h : s.configFile with
  | none => simp [alookup]
  | some cf => cases cf <;> simp [alookup]

theorem updateCargoToml_eq (s : St) (e : List Str) :
    updateCargoToml s e = { s with cargoToml := applyCargo s.cargoToml e } := by
  unfold updateCargoToml applyCargo
  cases h : s.cargoToml with
  | none =>
    simp only [h]
    conv_rhs => rw [← h]
  | some content =>
    cases hd : cargoDecompose content with
    | none =>
      simp only [h, hd]
      conv_rhs => rw [← h]
    | some triple =>
      obtain ⟨a, mid, post⟩ := triple
      simp only [h, hd]

theorem updateModExports_eq (s : St) (e : List Str) :
    updateModExports s e = { s with libRs := applyLib s.libRs e } := by
  unfold updateModExports applyLib
  cases h : s.libRs with
  | none =>
    simp only [h]
    conv_rhs => rw [← h]
  | some content => simp only [h]

theorem syncModules_eq (s : St) :
    syncModules s =
      createModulesModFile
        { s with cargoToml := applyCargo s.cargoToml (enabledIds (loadModuleConfig s)),
                 libRs := applyLib s.libRs (enabledIds (loadModuleConfig s)) }
        (enabledIds (loadModuleConfig s)) := by
  simp only [syncModules]
  rw [updateCargoToml_eq, updateModExports_eq]

theorem syncModules_configFile (s : St) : (syncModules s).configFile = s.configFile := by
  rw [syncModules_eq]
  unfold createModulesModFile
  split <;> rfl

theorem syncModules_cargoToml (s : St) :
    (syncModules s).cargoToml = applyCargo s.cargoToml (enabledIds (loadModuleConfig s)) := by
  rw [syncModules_eq]
  unfold createModulesModFile
  split <;> rfl

theorem syncModules_libRs (s : St) :
    (syncModules s).libRs = applyLib s.libRs (enabledIds (loadModuleConfig s)) := by
  rw [syncModules_eq]
  unfold createModulesModFile
  split <;> rfl

theorem syncModules_installedDirs (s : St) :
    (syncModules s).installedDirs =
      if (enabledIds (loadModuleConfig s)).length = 0 then [] else s.installedDirs := by
  rw [syncModules_eq]
  unfold createModulesModFile
  split <;> simp_all

theorem syncModules_modRs (s : St) :
    (syncModules s).modRs =
      if (enabledIds (loadModuleConfig s)).length = 0 then none
      else some (modContent (enabledIds (loadModuleConfig s))) := by
  rw [syncModules_eq]
  unfold createModulesModFile
  split <;> simp_all

/-! ## Case analysis of the three mutating commands -/

theorem installModule_cases (env : Env) (s : St) (id : Str) :
    ((installModule env s id).2 = s ∧ (installModule env s id).1 ≠ .installed) ∨
      installModule env s id = (.installed, installSuccessState s id) := by
  unfold installModule installSuccessState
  cases hm : alookup env.modules id with
  | none => exact Or.inl ⟨rfl, by simp⟩
  | some man =>
    by_cases hi : id ∈ installedIds env s
    · exact Or.inl ⟨by simp [hi], by simp [hi]⟩
    · cases hf : firstFailingDep (loadModuleConfig s) (installedIds env s) man.dependencies with
      | some d => exact Or.inl ⟨by simp [hi, hf], by simp [hi, hf]⟩
      | none =>
        right
        simp [hi, hf]

theorem uninstallModule_cases (env : Env) (s : St) (id : Str) :
    ((uninstallModule env s id).2 = s ∧ (uninstallModule env s id).1 ≠ .uninstalled) ∨
      uninstallModule env s id = (.uninstalled, uninstallSuccessState s id) := by
  unfold uninstallModule uninstallSuccessState
  cases hm : alookup env.modules id with
  | none => exact Or.inl ⟨rfl, by simp⟩
  | some man =>
    by_cases hi : id ∈ installedIds env s
    · by_cases hcd : man.can_disable
      · cases hdep : findDependent env (loadModuleConfig s) (installedIds env s) id with
        | some dep => exact Or.inl ⟨by simp [hi, hcd, hdep], by simp [hi, hcd, hdep]⟩
        | none =>
          right
          simp [hi, hcd, hdep]
      · exact Or.inl ⟨by simp [hi, hcd], by simp [hi, hcd]⟩
    · exact Or.inl ⟨by simp [hi], by simp [hi]⟩

theorem configureModule_cases (env : Env) (s : St) (id key value : Str) :
    ((configureModule env s id key value).2 = s ∧
        (configureModule env s id key value).1 ≠ .configured) ∨
      ((configureModule env s id key value).1 = .configured ∧ id ∈ installedIds env s ∧
        ∃ v, (configureModule env s id key value).2 =
          { s with configFile := some (.wellFormed
              (setConfigValue (ensureEntry (loadModuleConfig s) id) id key v)) }) := by
  unfold configureModule
  cases hm : alookup env.modules id with
  | none => exact Or.inl ⟨rfl, by simp⟩
  | some man =>
    by_cases hi : id ∈ installedIds env s
    · cases hk : alookup man.config_schema key with
      | none => exact Or.inl ⟨by simp [hi, hk], by simp [hi, hk]⟩
      | some schema =>
        cases hv : coerceValue schema.field_type value with
        | none => exact Or.inl ⟨by simp [hi, hk, hv], by simp [hi, hk, hv]⟩
        | some v =>
          right
          refine ⟨by simp [hi, hk, hv], hi, v, ?_⟩
          simp [hi, hk, hv]
    · exact Or.inl ⟨by simp [hi], by simp [hi]⟩

/-! ## Components of the success states -/

theorem installSuccessState_configFile (s : St) (id : Str) :
    (installSuccessState s id).configFile =
      some (.wellFormed (setEnabledTrue (loadModuleConfig s) id)) := rfl

theorem installSuccessState_installedDirs (s : St) (id : Str) :
    (installSuccessState s id).installedDirs = (copyModuleFiles s id).installedDirs := by
  simp only [installSuccessState]
  rw [updateCargoToml_eq, updateModExports_eq]
  unfold createModulesModFile
  rw [if_neg (enabledIds_setEnabledTrue_length (loadModuleConfig s) id)]

theorem uninstallSuccessState_configFile (s : St) (id : Str) :
    (uninstallSuccessState s id).configFile =
      some (.wellFormed (eraseKey (loadModuleConfig s) id)) := rfl

theorem uninstallSuccessState_installedDirs (s : St) (id : Str) :
    (uninstallSuccessState s id).installedDirs =
      if (enabledIds (eraseKey (loadModuleConfig s) id)).length = 0 then []
      else (removeModuleFiles s id).installedDirs := by
  simp only [uninstallSuccessState]
  rw [updateCargoToml_eq, updateModExports_eq]
  unfold createModulesModFile
  split <;> rfl

/-! ## The config-entry lifecycle invariant -/

theorem mem_installedIds_sub (env : Env) (s : St) (id : Str)
    (h : id ∈ installedIds env s) : id ∈ s.installedDirs := by
  unfold installedIds at h
  by_cases hs : s.srcExists
  · rw [if_pos hs] at h
    obtain ⟨p, hp, heq⟩ := List.mem_map.mp h
    have hmem := (List.mem_filter.mp hp).2
    rw [← heq]
    exact of_decide_eq_true hmem
  · rw [if_neg hs] at h
    exact absurd h (List.not_mem_nil id)

theorem stepCmd_hasEntry (env : Env) (X : Str) (s : St) (c : Cmd) (hInv : Inv s) :
    hasEntry X (stepCmd env s c) = justUpdate env X s c (hasEntry X s) := by
  cases c with
  | install id =>
    rcases installModule_cases env s id with ⟨h2, h1⟩ | h
    · simp only [stepCmd, justUpdate, h2]
      rw [if_neg (fun hc => h1 hc.2)]
    · simp only [stepCmd, justUpdate, h]
      by_cases hx : id = X
      · rw [if_pos ⟨hx, trivial⟩]
        subst hx
        simp [hasEntry, installSuccessState_configFile, alookup_setEnabledTrue_self]
      · rw [if_neg (fun hc => hx hc.1)]
        rw [hasEntry_eq X s]
        simp only [hasEntry, installSuccessState_configFile]
        rw [alookup_setEnabledTrue_other _ _ _ (Ne.symm hx)]
  | uninstall id =>
    rcases uninstallModule_cases env s id with ⟨h2, h1⟩ | h
    · simp only [stepCmd, justUpdate, h2]
      rw [if_neg (fun hc => h1 hc.2)]
    · simp only [stepCmd, justUpdate, h]
      by_cases hx : id = X
      · rw [if_pos ⟨hx, trivial⟩]
        subst hx
        simp [hasEntry, uninstallSuccessState_configFile, alookup_eraseKey_self]
      · rw [if_neg (fun hc => hx hc.1)]
        rw [hasEntry_eq X s]
        simp only [hasEntry, uninstallSuccessState_configFile]
        rw [alookup_eraseKey_other _ _ _ (Ne.symm hx)]
  | configure id key value =>
    rcases configureModule_cases env s id key value with ⟨h2, h1⟩ | ⟨hres, hinst, v, h2⟩
    · simp only [stepCmd, justUpdate, h2]
    · simp only [stepCmd, justUpdate, h2]
      rw [hasEntry_eq X s]
      simp only [hasEntry]
      by_cases hx : X = id
      · subst hx
        have hXdir := mem_installedIds_sub env s X hinst
        have hb := hInv X hXdir
        rw [hasEntry_eq X s] at hb
        rw [alookup_setConfigValue, hb]
        simp [alookup_ensureEntry_self (loadModuleConfig s) X]
      · rw [alookup_setConfigValue]
        rw [if_neg hx, alookup_ensureEntry_other _ _ _ hx]
  | sync =>
    simp only [stepCmd, justUpdate]
    rw [hasEntry_eq X s]
    simp only [hasEntry, syncModules_configFile]
    rw [← hasEntry_eq X s]
    simp only [hasEntry]
  | listCmd => rfl
  | info id => rfl

theorem stepCmd_Inv (env : Env) (s : St) (c : Cmd) (hInv : Inv s) : Inv (stepCmd env s c) := by
  cases c with
  | install id =>
    rcases installModule_cases env s id with ⟨h2, _⟩ | h
    · simpa only [stepCmd, h2] using hInv
    · simp only [stepCmd, h]
      intro d hd
      simp only [hasEntry, installSuccessState_configFile]
      by_cases hdi : d = id
      · subst hdi
        exact alookup_setEnabledTrue_self (loadModuleConfig s) d
      · rw [alookup_setEnabledTrue_other _ _ _ hdi]
        have hds : d ∈ s.installedDirs := by
          rw [installSuccessState_installedDirs] at hd
          simp only [copyModuleFiles] at hd
          by_cases hmem : id ∈ s.installedDirs
          · rw [if_pos hmem] at hd
            exact hd
          · rw [if_neg hmem] at hd
            rcases List.mem_append.mp hd with hl | hr
            · exact hl
            · exact absurd (List.mem_singleton.mp hr) hdi
        have := hInv d hds
        rw [hasEntry_eq d s] at this
        exact this
  | uninstall id =>
    rcases uninstallModule_cases env s id with ⟨h2, _⟩ | h
    · simpa only [stepCmd, h2] using hInv
    · simp only [stepCmd, h]
      intro d hd
      rw [uninstallSuccessState_installedDirs] at hd
      by_cases hempty : (enabledIds (eraseKey (loadModuleConfig s) id)).length = 0
      · rw [if_pos hempty] at hd
        exact absurd hd (List.not_mem_nil d)
      · rw [if_neg hempty] at hd
        simp only [removeModuleFiles] at hd
        have hdmem := List.mem_filter.mp hd
        have hdi : d ≠ id := of_decide_eq_true hdmem.2
        simp only [hasEntry, uninstallSuccessState_configFile]
        rw [alookup_eraseKey_other _ _ _ hdi]
        have := hInv d hdmem.1
        rw [hasEntry_eq d s] at this
        exact this
  | configure id key value =>
    rcases configureModule_cases env s id key value with ⟨h2, _⟩ | ⟨hres, hinst, v, h2⟩
    · simpa only [stepCmd, h2] using hInv
    · simp only [stepCmd, h2]
      intro d hd
      simp only [hasEntry]
      rw [alookup_setConfigValue]
      by_cases hdi : d = id
      · rw [if_pos hdi, hdi]
        simp only [Option.isSome_map']
        exact alookup_ensureEntry_self (loadModuleConfig s) id
      · rw [if_neg hdi, alookup_ensureEntry_other _ _ _ hdi]
        have := hInv d hd
        rw [hasEntry_eq d s] at this
        exact this
  | sync =>
    simp only [stepCmd]
    intro d hd
    rw [syncModules_installedDirs] at hd
    by_cases hempty : (enabledIds (loadModuleConfig s)).length = 0
    · rw [if_pos hempty] at hd
      exact absurd hd (List.not_mem_nil d)
    · rw [if_neg hempty] at hd
      simp only [hasEntry, syncModules_configFile]
      exact hInv d hd
  | listCmd => exact hInv
  | info id => exact hInv

/-! ## String-scanning lemmas for the features-region replacement -/

theorem takeWhile_all_append (p : Char → Bool) (w : Str) (b : Char) (rest : Str)
    (hw : ∀ c ∈ w, p c = true) (hb : p b = false) :
    (w ++ b :: rest).takeWhile p = w ∧ (w ++ b :: rest).dropWhile p = b :: rest := by
  induction w with
  | nil =>
    constructor
    · simp [List.takeWhile_cons, hb]
    · simp [List.dropWhile_cons, hb]
  | cons c w2 ih =>
    have hc : p c = true := hw c (List.mem_cons_self c w2)
    obtain ⟨h1, h2⟩ := ih (fun x hx => hw x (List.mem_cons_of_mem c hx))
    constructor
    · simp [List.takeWhile_cons, hc, h1]
    · simp [List.dropWhile_cons, hc, h2]

theorem dropWhile_append_of_ne_nil (p : Char → Bool) (v z : Str)
    (h : v.dropWhile p ≠ []) :
    (v ++ z).dropWhile p = v.dropWhile p ++ z := by
  rw [List.dropWhile_append, if_neg (by simpa using h)]

theorem takeWhile_append_of_ne_nil (p : Char → Bool) (v z : Str)
    (h : v.dropWhile p ≠ []) :
    (v ++ z).takeWhile p = v.takeWhile p := by
  rw [List.takeWhile_append, if_neg ?_]
  intro hc
  apply h
  have hl := congrArg List.length (List.takeWhile_append_dropWhile p v)
  rw [List.length_append, hc] at hl
  have : (v.dropWhile p).length = 0 := by omega
  exact List.length_eq_zero.mp this

theorem dropWhile_head_false (p : Char → Bool) :
    ∀ (l : Str) (b : Char) (t : Str), l.dropWhile p = b :: t → p b = false := by
  intro l
  induction l with
  | nil => intro b t h; cases h
  | cons c cs ih =>
    intro b t h
    rw [List.dropWhile_cons] at h
    by_cases hc : p c = true
    · rw [if_pos hc] at h
      exact ih b t h
    · rw [if_neg hc] at h
      obtain ⟨rfl, rfl⟩ : c = b ∧ cs = t := by
        simpa using h
      simpa using hc

theorem isPrefixOf_append_indep (pat u v w : Str) (h : pat.length ≤ u.length) :
    (pat.isPrefixOf (u ++ v) = true) ↔ (pat.isPrefixOf (u ++ w) = true) := by
  rw [List.isPrefixOf_iff_prefix, List.isPrefixOf_iff_prefix, List.prefix_iff_eq_take,
    List.prefix_iff_eq_take, List.take_append_of_le_length h, List.take_append_of_le_length h]

theorem eq_append_drop_of_isPrefixOf (pat u : Str) (h : pat.isPrefixOf u = true) :
    u = pat ++ u.drop pat.length := by
  have htake := List.prefix_iff_eq_take.mp (List.isPrefixOf_iff_prefix.mp h)
  conv_lhs => rw [← List.take_append_drop pat.length u]
  rw [← htake]

theorem findSub_some (pat : Str) :
    ∀ (s p r : Str), findSub pat s = some (p, r) →
      s = p ++ r ∧ pat.isPrefixOf r = true ∧
        ∀ i, i < p.length → ¬ (pat.isPrefixOf (p.drop i ++ r) = true) := by
  intro s
  induction s with
  | nil =>
    intro p r h
    unfold findSub at h
    by_cases hp : pat.isPrefixOf ([] : Str) = true
    · rw [if_pos hp] at h
      simp only [Option.some.injEq, Prod.mk.injEq] at h
      obtain ⟨rfl, rfl⟩ := h
      exact ⟨rfl, hp, fun i hi => absurd hi (by simp)⟩
    · rw [if_neg hp] at h
      cases h
  | cons c cs ih =>
    intro p r h
    unfold findSub at h
    by_cases hp : pat.isPrefixOf (c :: cs) = true
    · rw [if_pos hp] at h
      simp only [Option.some.injEq, Prod.mk.injEq] at h
      obtain ⟨rfl, rfl⟩ := h
      exact ⟨rfl, hp, fun i hi => absurd hi (by simp)⟩
    · rw [if_neg hp] at h
      cases hrec : findSub pat cs with
      | none => rw [hrec] at h; cases h
      | some pr =>
        obtain ⟨p2, r2⟩ := pr
        rw [hrec] at h
        simp only [Option.some.injEq, Prod.mk.injEq] at h
        obtain ⟨rfl, rfl⟩ := h
        obtain ⟨hcs, hpre, hno⟩ := ih p2 r2 hrec
        refine ⟨by rw [List.cons_append, ← hcs], hpre, ?_⟩
        intro i hi
        cases i with
        | zero =>
          simpa [← hcs] using hp
        | succ j =>
          have := hno j (by simpa using Nat.lt_of_succ_lt_succ hi)
          simpa using this

theorem findSub_complete (pat : Str) :
    ∀ (p r : Str), pat.isPrefixOf r = true →
      (∀ i, i < p.length → ¬ (pat.isPrefixOf (p.drop i ++ r) = true)) →
      findSub pat (p ++ r) = some (p, r) := by
  intro p
  induction p with
  | nil =>
    intro r hr _
    rw [List.nil_append]
    cases r with
    | nil => unfold findSub; rw [if_pos hr]
    | cons c cs => unfold findSub; rw [if_pos hr]
  | cons c p2 ih =>
    intro r hr hno
    have h0 : ¬ (pat.isPrefixOf (c :: (p2 ++ r)) = true) := by
      have := hno 0 (by simp)
      simpa using this
    show findSub pat (c :: (p2 ++ r)) = _
    unfold findSub
    rw [if_neg h0]
    have hrec := ih r hr (fun j hj => by
      have := hno (j + 1) (by simpa using Nat.succ_lt_succ hj)
      simpa using this)
    rw [hrec]

theorem findMatch_some {α : Type} (f : Str → Option α) :
    ∀ (s m : Str) (a : α), findMatch f s = some (m, a) →
      ∃ u, s = m ++ u ∧ f u = some a ∧ ∀ i, i < m.length → f (m.drop i ++ u) = none := by
  intro s
  induction s with
  | nil =>
    intro m a h
    unfold findMatch at h
    cases hf : f [] with
    | none => rw [hf] at h; cases h
    | some b =>
      rw [hf] at h
      simp only [Option.some.injEq, Prod.mk.injEq] at h
      obtain ⟨rfl, rfl⟩ := h
      exact ⟨[], rfl, hf, fun i hi => absurd hi (by simp)⟩
  | cons c cs ih =>
    intro m a h
    unfold findMatch at h
    cases hf : f (c :: cs) with
    | some b =>
      rw [hf] at h
      simp only [Option.some.injEq, Prod.mk.injEq] at h
      obtain ⟨rfl, rfl⟩ := h
      exact ⟨c :: cs, rfl, hf, fun i hi => absurd hi (by simp)⟩
    | none =>
      rw [hf] at h
      cases hrec : findMatch f cs with
      | none => rw [hrec] at h; cases h
      | some pa =>
        obtain ⟨m2, a2⟩ := pa
        rw [hrec] at h
        simp only [Option.some.injEq, Prod.mk.injEq] at h
        obtain ⟨rfl, rfl⟩ := h
        obtain ⟨u, hu, hfu, hnone⟩ := ih m2 a2 hrec
        refine ⟨u, by rw [List.cons_append, ← hu], hfu, ?_⟩
        intro i hi
        cases i with
        | zero =>
          simpa [← hu] using hf
        | succ j =>
          have := hnone j (by simpa using Nat.lt_of_succ_lt_succ hi)
          simpa using this

theorem findMatch_complete {α : Type} (f : Str → Option α) :
    ∀ (m u : Str) (a : α), f u = some a →
      (∀ i, i < m.length → f (m.drop i ++ u) = none) →
      findMatch f (m ++ u) = some (m, a) := by
  intro m
  induction m with
  | nil =>
    intro u a hf _
    rw [List.nil_append]
    cases u with
    | nil => unfold findMatch; rw [hf]
    | cons c cs => unfold findMatch; rw [hf]
  | cons c m2 ih =>
    intro u a hf hnone
    have h0 : f (c :: (m2 ++ u)) = none := by
      have := hnone 0 (by simp)
      simpa using this
    show findMatch f (c :: (m2 ++ u)) = _
    unfold findMatch
    rw [h0]
    have hrec := ih u a hf (fun j hj => by
      have := hnone (j + 1) (by simpa using Nat.succ_lt_succ hj)
      simpa using this)
    rw [hrec]

theorem matchDefaultEq_some_inv (u d r : Str) (h : matchDefaultEq u = some (d, r)) :
    u = d ++ r ∧ ∃ w1 w2, d = dfltPat ++ w1 ++ '=' :: w2 ++ ['['] ∧
      (∀ c ∈ w1, jsWs c = true) ∧ (∀ c ∈ w2, jsWs c = true) := by
  unfold matchDefaultEq at h
  by_cases hp : dfltPat.isPrefixOf u = true
  case neg => rw [if_neg hp] at h; cases h
  case pos =>
    rw [if_pos hp] at h
    cases h1 : (u.drop 7).dropWhile jsWs with
    | nil =>
      simp only [h1] at h
      exact Option.noConfusion h
    | cons e t2 =>
      simp only [h1] at h
      by_cases he : e = '='
      case neg => rw [if_neg he] at h; cases h
      case pos =>
        rw [if_pos he] at h
        cases h2 : t2.dropWhile jsWs with
        | nil =>
          simp only [h2] at h
          exact Option.noConfusion h
        | cons b t3 =>
          simp only [h2] at h
          by_cases hbb : b = '['
          case neg => rw [if_neg hbb] at h; cases h
          case pos =>
            rw [if_pos hbb] at h
            simp only [Option.some.injEq, Prod.mk.injEq] at h
            obtain ⟨hdq, hrq⟩ := h
            subst he
            subst hbb
            have hu7 : u = dfltPat ++ u.drop 7 := by
              have h7 : dfltPat.length = 7 := by decide
              have := eq_append_drop_of_isPrefixOf dfltPat u hp
              rwa [h7] at this
            have hsplit1 : u.drop 7 = (u.drop 7).takeWhile jsWs ++ ('=' :: t2) := by
              rw [← h1, List.takeWhile_append_dropWhile]
            have hsplit2 : t2 = t2.takeWhile jsWs ++ ('[' :: t3) := by
              rw [← h2, List.takeWhile_append_dropWhile]
            constructor
            · rw [← hdq, ← hrq]
              conv_lhs => rw [hu7, hsplit1, hsplit2]
              simp
            · exact ⟨(u.drop 7).takeWhile jsWs, t2.takeWhile jsWs, hdq.symm,
                fun c hc => List.mem_takeWhile_imp hc,
                fun c hc => List.mem_takeWhile_imp hc⟩

theorem matchDefaultEq_shape_app (w1 w2 x : Str)
    (h1 : ∀ c ∈ w1, jsWs c = true) (h2 : ∀ c ∈ w2, jsWs c = true) :
    matchDefaultEq ((dfltPat ++ w1 ++ '=' :: w2 ++ ['[']) ++ x)
      = some (dfltPat ++ w1 ++ '=' :: w2 ++ ['['], x) := by
  have hform : (dfltPat ++ w1 ++ '=' :: w2 ++ ['[']) ++ x
      = dfltPat ++ (w1 ++ '=' :: (w2 ++ '[' :: x)) := by simp
  rw [hform]
  have hpre : dfltPat.isPrefixOf (dfltPat ++ (w1 ++ '=' :: (w2 ++ '[' :: x))) = true :=
    List.isPrefixOf_iff_prefix.mpr (List.prefix_append _ _)
  unfold matchDefaultEq
  rw [if_pos hpre]
  have hdrop : (dfltPat ++ (w1 ++ '=' :: (w2 ++ '[' :: x))).drop 7
      = w1 ++ '=' :: (w2 ++ '[' :: x) := by
    have h7 : dfltPat.length = 7 := by decide
    rw [← h7, List.drop_left]
  rw [hdrop]
  obtain ⟨ht1, hd1⟩ := takeWhile_all_append jsWs w1 '=' (w2 ++ '[' :: x) h1 (by decide)
  rw [hd1, ht1]
  obtain ⟨ht2, hd2⟩ := takeWhile_all_append jsWs w2 '[' x h2 (by decide)
  simp only [hd2, ht2]
  simp

/-- Behaviour of the `default\s*=\s*\[` matcher on a string whose scanned
region ends in `[`: whether and how it matches is independent of what follows
that final `[`. -/
theorem matchDefaultEq_bracket (u0 x y : Str) :
    (matchDefaultEq (u0 ++ '[' :: x) = none ∧ matchDefaultEq (u0 ++ '[' :: y) = none) ∨
    (∃ d, matchDefaultEq (u0 ++ '[' :: x) = some (d, x) ∧
      matchDefaultEq (u0 ++ '[' :: y) = some (d, y)) ∨
    (∃ d r0, matchDefaultEq (u0 ++ '[' :: x) = some (d, r0 ++ '[' :: x) ∧
      matchDefaultEq (u0 ++ '[' :: y) = some (d, r0 ++ '[' :: y)) := by
  have hlenTrans : ∀ (z : Str), dfltPat.isPrefixOf (u0 ++ '[' :: z) = true → 7 ≤ u0.length := by
    intro z h
    by_contra hlt
    push_neg at hlt
    have htake := List.prefix_iff_eq_take.mp (List.isPrefixOf_iff_prefix.mp h)
    have h7 : dfltPat.length = 7 := by decide
    rw [h7, List.take_append_eq_append_take,
      List.take_of_length_le (Nat.le_of_lt hlt)] at htake
    have hmem : '[' ∈ dfltPat := by
      rw [htake]
      cases hk : 7 - u0.length with
      | zero => omega
      | succ n =>
        rw [List.take_succ_cons]
        exact List.mem_append.mpr (Or.inr (List.mem_cons_self _ _))
    exact absurd hmem (by decide)
  have hpreTrans : ∀ (z1 z2 : Str), dfltPat.isPrefixOf (u0 ++ '[' :: z1) = true →
      dfltPat.isPrefixOf (u0 ++ '[' :: z2) = true := by
    intro z1 z2 h
    have h7 := hlenTrans z1 h
    have hlen : dfltPat.length ≤ (u0 ++ ['[']).length := by
      have h7p : dfltPat.length = 7 := by decide
      rw [h7p, List.length_append]
      simp
      omega
    rw [List.append_cons u0 '[' z1] at h
    rw [List.append_cons u0 '[' z2]
    exact (isPrefixOf_append_indep dfltPat (u0 ++ ['[']) z1 z2 hlen).mp h
  by_cases hpx : dfltPat.isPrefixOf (u0 ++ '[' :: x) = true
  case neg =>
    have hpy : ¬ dfltPat.isPrefixOf (u0 ++ '[' :: y) = true :=
      fun hy => hpx (hpreTrans y x hy)
    refine Or.inl ⟨?_, ?_⟩
    · unfold matchDefaultEq; rw [if_neg hpx]
    · unfold matchDefaultEq; rw [if_neg hpy]
  case pos =>
    have hpy := hpreTrans x y hpx
    have h7 := hlenTrans x hpx
    have hdz : ∀ (z : Str), (u0 ++ '[' :: z).drop 7 = u0.drop 7 ++ '[' :: z := by
      intro z
      rw [List.drop_append_eq_append_drop]
      have hz : 7 - u0.length = 0 := by omega
      rw [hz, List.drop_zero]
    set v0 := u0.drop 7 with hv0
    cases hvd : v0.dropWhile jsWs with
    | nil =>
      have hall : ∀ c ∈ v0, jsWs c = true := List.dropWhile_eq_nil_iff.mp hvd
      have hstep : ∀ z : Str, (v0 ++ '[' :: z).dropWhile jsWs = '[' :: z :=
        fun z => (takeWhile_all_append jsWs v0 '[' z hall (by decide)).2
      refine Or.inl ⟨?_, ?_⟩
      · unfold matchDefaultEq
        rw [if_pos hpx, hdz x, hstep x]
        simp
      · unfold matchDefaultEq
        rw [if_pos hpy, hdz y, hstep y]
        simp
    | cons c wb =>
      have hne : v0.dropWhile jsWs ≠ [] := by rw [hvd]; simp
      have hstep : ∀ z : Str, (v0 ++ '[' :: z).dropWhile jsWs = c :: (wb ++ '[' :: z) := by
        intro z
        rw [dropWhile_append_of_ne_nil jsWs v0 ('[' :: z) hne, hvd]
        simp
      have htak : ∀ z : Str, (v0 ++ '[' :: z).takeWhile jsWs = v0.takeWhile jsWs :=
        fun z => takeWhile_append_of_ne_nil jsWs v0 ('[' :: z) hne
      by_cases hce : c = '='
      · cases hwd : wb.dropWhile jsWs with
        | nil =>
          have hallw : ∀ a ∈ wb, jsWs a = true := List.dropWhile_eq_nil_iff.mp hwd
          have hstep2 : ∀ z : Str, (wb ++ '[' :: z).dropWhile jsWs = '[' :: z :=
            fun z => (takeWhile_all_append jsWs wb '[' z hallw (by decide)).2
          have htak2 : ∀ z : Str, (wb ++ '[' :: z).takeWhile jsWs = wb :=
            fun z => (takeWhile_all_append jsWs wb '[' z hallw (by decide)).1
          refine Or.inr (Or.inl ⟨dfltPat ++ v0.takeWhile jsWs ++ c :: wb ++ ['['], ?_, ?_⟩)
          · unfold matchDefaultEq
            rw [if_pos hpx, hdz x, hstep x, htak x]
            simp [hce, hstep2 x, htak2 x]
          · unfold matchDefaultEq
            rw [if_pos hpy, hdz y, hstep y, htak y]
            simp [hce, hstep2 y, htak2 y]
        | cons b2 wb2 =>
          have hnew : wb.dropWhile jsWs ≠ [] := by rw [hwd]; simp
          have hstep2 : ∀ z : Str, (wb ++ '[' :: z).dropWhile jsWs = b2 :: (wb2 ++ '[' :: z) := by
            intro z
            rw [dropWhile_append_of_ne_nil jsWs wb ('[' :: z) hnew, hwd]
            simp
          have htak2 : ∀ z : Str, (wb ++ '[' :: z).takeWhile jsWs = wb.takeWhile jsWs :=
            fun z => takeWhile_append_of_ne_nil jsWs wb ('[' :: z) hnew
          by_cases hbb : b2 = '['
          · refine Or.inr (Or.inr
              ⟨dfltPat ++ v0.takeWhile jsWs ++ c :: wb.takeWhile jsWs ++ [b2], wb2, ?_, ?_⟩)
            · unfold matchDefaultEq
              rw [if_pos hpx, hdz x, hstep x, htak x]
              simp [hce, hstep2 x, htak2 x, hbb]
            · unfold matchDefaultEq
              rw [if_pos hpy, hdz y, hstep y, htak y]
              simp [hce, hstep2 y, htak2 y, hbb]
          · refine Or.inl ⟨?_, ?_⟩
            · unfold matchDefaultEq
              rw [if_pos hpx, hdz x, hstep x]
              simp [hce, hstep2 x, hbb]
            · unfold matchDefaultEq
              rw [if_pos hpy, hdz y, hstep y]
              simp [hce, hstep2 y, hbb]
      · refine Or.inl ⟨?_, ?_⟩
        · unfold matchDefaultEq
          rw [if_pos hpx, hdz x, hstep x]
          simp [hce]
        · unfold matchDefaultEq
          rw [if_pos hpy, hdz y, hstep y]
          simp [hce]

/-- Key stability property of the features-region replacement: substituting any
`]`-free text for the matched middle leaves the regex decomposition boundaries
unchanged, so a second replacement reproduces the same file. -/
theorem cargoDecompose_stable (content a mid post flags : Str)
    (h : cargoDecompose content = some (a, mid, post))
    (hfl : ∀ c ∈ flags, notRBracket c = true) :
    cargoDecompose (a ++ flags ++ post) = some (a, flags, post) := by
  unfold cargoDecompose at h
  cases hfs : findSub featPat content with
  | none => rw [hfs] at h; cases h
  | some pq =>
    obtain ⟨p, q⟩ := pq
    simp only [hfs] at h
    cases hfm : findMatch matchDefaultEq (q.drop 10) with
    | none =>
      simp only [hfm] at h
      exact Option.noConfusion h
    | some ma =>
      obtain ⟨m, dr⟩ := ma
      obtain ⟨d, r⟩ := dr
      simp only [hfm] at h
      cases hrb : r.dropWhile notRBracket with
      | nil =>
        simp only [hrb] at h
        exact Option.noConfusion h
      | cons b t =>
        simp only [hrb] at h
        simp only [Option.some.injEq, Prod.mk.injEq] at h
        obtain ⟨ha, hmid, hpost⟩ := h
        have hbr : b = ']' := by
          have hfalse := dropWhile_head_false notRBracket r b t hrb
          unfold notRBracket at hfalse
          exact not_not.mp (of_decide_eq_false hfalse)
        subst hbr
        subst ha
        subst hmid
        subst hpost
        obtain ⟨hcontent, hqpre, hqno⟩ := findSub_some featPat content p q hfs
        have h10 : featPat.length = 10 := by decide
        have hq : q = featPat ++ q.drop 10 := by
          have := eq_append_drop_of_isPrefixOf featPat q hqpre
          rwa [h10] at this
        obtain ⟨u, hqd, hmu, hmno⟩ := findMatch_some matchDefaultEq (q.drop 10) m (d, r) hfm
        obtain ⟨hudr, w1, w2, hd, hw1, hw2⟩ := matchDefaultEq_some_inv u d r hmu
        have hWold : q = featPat ++ (m ++ u) := by rw [hq, hqd]
        have harg : (p ++ featPat ++ m ++ d) ++ flags ++ (']' :: t)
            = p ++ (featPat ++ (m ++ (d ++ (flags ++ (']' :: t))))) := by simp
        rw [harg]
        have hno1 : ∀ i, i < p.length →
            ¬ (featPat.isPrefixOf
              (p.drop i ++ (featPat ++ (m ++ (d ++ (flags ++ (']' :: t)))))) = true) := by
          intro i hi hcontra
          apply hqno i hi
          rw [hWold]
          have hlen : featPat.length ≤ (p.drop i ++ featPat).length := by
            rw [List.length_append, h10]
            omega
          have hca : p.drop i ++ (featPat ++ (m ++ (d ++ (flags ++ (']' :: t)))))
              = (p.drop i ++ featPat) ++ (m ++ (d ++ (flags ++ (']' :: t)))) :=
            (List.append_assoc _ _ _).symm
          have hcb : p.drop i ++ (featPat ++ (m ++ u))
              = (p.drop i ++ featPat) ++ (m ++ u) :=
            (List.append_assoc _ _ _).symm
          rw [hca] at hcontra
          rw [hcb]
          exact (isPrefixOf_append_indep featPat (p.drop i ++ featPat)
            (m ++ (d ++ (flags ++ (']' :: t)))) (m ++ u) hlen).mp hcontra
        have hstep1 : findSub featPat (p ++ (featPat ++ (m ++ (d ++ (flags ++ (']' :: t))))))
            = some (p, featPat ++ (m ++ (d ++ (flags ++ (']' :: t))))) :=
          findSub_complete featPat p (featPat ++ (m ++ (d ++ (flags ++ (']' :: t)))))
            (List.isPrefixOf_iff_prefix.mpr (List.prefix_append _ _)) hno1
        unfold cargoDecompose
        simp only [hstep1]
        have hdrop10 : (featPat ++ (m ++ (d ++ (flags ++ (']' :: t))))).drop 10
            = m ++ (d ++ (flags ++ (']' :: t))) := by
          rw [← h10, List.drop_left]
        simp only [hdrop10]
        have happD : matchDefaultEq (d ++ (flags ++ (']' :: t)))
            = some (d, flags ++ (']' :: t)) := by
          conv_lhs => rw [hd]
          rw [matchDefaultEq_shape_app w1 w2 (flags ++ (']' :: t)) hw1 hw2, ← hd]
        have hno3 : ∀ i, i < m.length →
            matchDefaultEq (m.drop i ++ (d ++ (flags ++ (']' :: t)))) = none := by
          intro i hi
          have hold := hmno i hi
          have hform_old : m.drop i ++ u
              = (m.drop i ++ (dfltPat ++ w1 ++ '=' :: w2)) ++ '[' :: r := by
            rw [hudr, hd]
            simp
          have hform_new : m.drop i ++ (d ++ (flags ++ (']' :: t)))
              = (m.drop i ++ (dfltPat ++ w1 ++ '=' :: w2)) ++ '[' :: (flags ++ (']' :: t)) := by
            rw [hd]
            simp
          rw [hform_new]
          rcases matchDefaultEq_bracket (m.drop i ++ (dfltPat ++ w1 ++ '=' :: w2)) r
              (flags ++ (']' :: t)) with ⟨hn1, hn2⟩ | ⟨d2, h1, h2⟩ | ⟨d2, r0, h1, h2⟩
          · exact hn2
          · rw [hform_old, h1] at hold
            exact Option.noConfusion hold
          · rw [hform_old, h1] at hold
            exact Option.noConfusion hold
        have hstep3 : findMatch matchDefaultEq (m ++ (d ++ (flags ++ (']' :: t))))
            = some (m, (d, flags ++ (']' :: t))) :=
          findMatch_complete matchDefaultEq m (d ++ (flags ++ (']' :: t)))
            (d, flags ++ (']' :: t)) happD hno3
        simp only [hstep3]
        obtain ⟨ht4, hd4⟩ := takeWhile_all_append notRBracket flags ']' t hfl (by decide)
        simp only [ht4, hd4]

theorem runCmds_hasEntry (env : Env) (X : Str) :
    ∀ (cmds : List Cmd) (s : St), Inv s →
      hasEntry X (runCmds env s cmds) = runJustified env X s cmds (hasEntry X s) := by
  intro cmds
  induction cmds with
  | nil => intro s _; rfl
  | cons c cs ih =>
    intro s h
    simp only [runCmds, runJustified]
    rw [← stepCmd_hasEntry env X s c h]
    exact ih (stepCmd env s c) (stepCmd_Inv env s c h)

/-! ## Consequences for the cargo replacement and the flag list -/

theorem find?_filter_and {α : Type} (l : List α) (p q : α → Bool) :
    (l.filter p).find? (fun a => p a && q a) = l.find? (fun a => p a && q a) := by
  induction l with
  | nil => rfl
  | cons x t ih =>
    by_cases hp : p x = true
    · by_cases hq : q x = true
      · rw [List.filter_cons, if_pos hp, List.find?_cons_of_pos _ (by simp [hp, hq]),
          List.find?_cons_of_pos _ (by simp [hp, hq])]
      · rw [List.filter_cons, if_pos hp, List.find?_cons_of_neg _ (by simp [hq]),
          List.find?_cons_of_neg _ (by simp [hq]), ih]
    · rw [List.filter_cons, if_neg (by simpa using hp),
        List.find?_cons_of_neg _ (by simp [hp]), ih]

theorem mem_joinSep (sep : Str) :
    ∀ (l : List Str) (c : Char), c ∈ joinSep sep l → c ∈ sep ∨ ∃ x ∈ l, c ∈ x := by
  intro l
  induction l with
  | nil =>
    intro c hc
    simp [joinSep] at hc
  | cons x l2 ih =>
    cases l2 with
    | nil =>
      intro c hc
      exact Or.inr ⟨x, by simp, by simpa [joinSep] using hc⟩
    | cons y l3 =>
      intro c hc
      simp only [joinSep] at hc
      rcases List.mem_append.mp hc with h12 | h4
      · rcases List.mem_append.mp h12 with h1 | h3
        · exact Or.inr ⟨x, by simp, h1⟩
        · exact Or.inl h3
      · rcases ih c h4 with h5 | ⟨z, hz, hcz⟩
        · exact Or.inl h5
        · exact Or.inr ⟨z, by simp [hz], hcz⟩

theorem featureFlags_no_rbracket (e : List Str) (h : ∀ id ∈ e, ']' ∉ id) :
    ∀ c ∈ featureFlags e, notRBracket c = true := by
  intro c hc
  unfold featureFlags at hc
  rcases mem_joinSep (", ".data) (e.map quoteFlag) c hc with hsep | ⟨x, hx, hcx⟩
  · have hsep2 : c ∈ [',', ' '] := by
      have heq : (", ".data : Str) = [',', ' '] := by decide
      rwa [heq] at hsep
    have : c = ',' ∨ c = ' ' := by simpa using hsep2
    rcases this with rfl | rfl <;> decide
  · obtain ⟨id, hid, rfl⟩ := List.mem_map.mp hx
    unfold quoteFlag at hcx
    rcases List.mem_cons.mp hcx with rfl | hcx2
    · decide
    · rcases List.mem_append.mp hcx2 with h12 | h4
      · rcases List.mem_append.mp h12 with h1 | h3
        · have heq : ("module-".data : Str) = ['m', 'o', 'd', 'u', 'l', 'e', '-'] := by decide
          rw [heq] at h1
          have hd : c = 'm' ∨ c = 'o' ∨ c = 'd' ∨ c = 'u' ∨ c = 'l' ∨ c = 'e' ∨ c = '-' := by
            simpa using h1
          rcases hd with rfl | rfl | rfl | rfl | rfl | rfl | rfl <;> decide
        · have hne : c ≠ ']' := fun hceq => (h id hid) (hceq ▸ h3)
          exact decide_eq_true hne
      · have : c = '"' := by simpa using h4
        subst this
        decide

theorem applyCargo_idem (c : Option Str) (e : List Str)
    (hfl : ∀ ch ∈ featureFlags e, notRBracket ch = true) :
    applyCargo (applyCargo c e) e = applyCargo c e := by
  cases c with
  | none => rfl
  | some content =>
    cases hd : cargoDecompose content with
    | none =>
      have h1 : applyCargo (some content) e = some content := by
        unfold applyCargo
        simp only [hd]
      rw [h1]
      exact h1
    | some triple =>
      obtain ⟨a, mid, post⟩ := triple
      have h1 : applyCargo (some content) e = some (a ++ featureFlags e ++ post) := by
        unfold applyCargo
        simp only [hd]
      have h2 : cargoDecompose (a ++ featureFlags e ++ post)
          = some (a, featureFlags e, post) :=
        cargoDecompose_stable content a mid post (featureFlags e) hd hfl
      rw [h1]
      unfold applyCargo
      simp only [h2]

/-! ## The claims -/

/-- C1: for a known module id that is not yet installed, `installModule` fails
with DependencyMissing naming the first non-optional dependency whose target is
not both filesystem-installed and config-enabled, mutating nothing; optional
dependency entries are never checked (dropping them does not change the first
failing entry); and once no non-optional dependency fails, the install
succeeds. -/
theorem claim_C1_install_dependency_gate (env : Env) (s : St) (id : Str) (man : Manifest)
    (hman : alookup env.modules id = some man)
    (hni : id ∉ installedIds env s) :
    (∀ dep, firstFailingDep (loadModuleConfig s) (installedIds env s) man.dependencies
        = some dep →
      installModule env s id = (.dependencyMissing dep, s))
    ∧ (firstFailingDep (loadModuleConfig s) (installedIds env s) man.dependencies = none →
      installModule env s id = (.installed, installSuccessState s id))
    ∧ firstFailingDep (loadModuleConfig s) (installedIds env s) man.dependencies
        = firstFailingDep (loadModuleConfig s) (installedIds env s)
            (man.dependencies.filter (fun dep => !dep.optional)) := by
  refine ⟨?_, ?_, ?_⟩
  · intro dep hf
    unfold installModule
    simp [hman, hni, hf]
  · intro hf
    unfold installModule installSuccessState
    simp [hman, hni, hf]
  · unfold firstFailingDep
    exact congrArg (Option.map (fun d => d.module_id))
      (find?_filter_and man.dependencies (fun d => !d.optional)
        (fun d => !depSatisfied (loadModuleConfig s) (installedIds env s) d)).symm

/-- C1 witness: in the two-module fixture, `install auth` fails with
DependencyMissing database on the fresh project and `install database`
succeeds there. -/
theorem claim_C1_witness :
    installModule wEnv wSt0 ("auth".data)
        = (.dependencyMissing ("database".data), wSt0)
    ∧ installModule wEnv wSt0 ("database".data)
        = (.installed, installSuccessState wSt0 ("database".data)) :=
  ⟨(claim_C1_install_dependency_gate wEnv wSt0 ("auth".data) wAuth (by decide)
      (by decide)).1 ("database".data) (by decide),
   (claim_C1_install_dependency_gate wEnv wSt0 ("database".data) wDB (by decide)
      (by decide)).2.1 (by decide)⟩

/-- C2 counterexample: the reverse-dependency scan does not exclude the module
being uninstalled, so a module whose manifest lists a non-optional dependency on
itself makes `uninstall` fail with ReverseDependencyExists naming itself even
though no *other* module exists at all — the claimed "if and only if some other
module … depends on id" is false. -/
theorem claim_C2_counterexample :
    (uninstallModule wEnvSelf wStSelf ("selfy".data)).1
        = UninstallResult.reverseDependencyExists ("selfy".data)
    ∧ ∀ p ∈ wEnvSelf.modules, p.1 = "selfy".data := by
  constructor
  · decide
  · decide

/-- C2 (amended): for an installed, non-protected module id, `uninstallModule`
fails with ReverseDependencyExists naming a dependent if and only if some
available module — possibly id itself — is both config-enabled and
filesystem-installed and lists a non-optional dependency on id; and in the
two-module scenario, `uninstall database` fails naming `auth` while `auth` is
installed, and succeeds after `uninstall auth`. -/
theorem claim_C2_reverse_dependency (env : Env) (s : St) (id : Str) (man : Manifest)
    (hman : alookup env.modules id = some man)
    (hinst : id ∈ installedIds env s)
    (hcd : man.can_disable = true) :
    ((∃ dep, (uninstallModule env s id).1 = .reverseDependencyExists dep) ↔
      ∃ p ∈ env.modules,
        ((alookup (loadModuleConfig s) p.1).elim false (fun en => en.enabled)) = true
        ∧ p.1 ∈ installedIds env s ∧ hasNonOptDepOn p.2 id = true)
    ∧ (uninstallModule wEnv wStBoth ("database".data)).1
        = .reverseDependencyExists ("auth".data)
    ∧ (uninstallModule wEnv ((uninstallModule wEnv wStBoth ("auth".data)).2)
        ("database".data)).1 = .uninstalled := by
  refine ⟨⟨?_, ?_⟩, by decide, by decide⟩
  · rintro ⟨dep, hdep⟩
    unfold uninstallModule at hdep
    simp only [hman] at hdep
    rw [if_pos hinst, if_pos hcd] at hdep
    cases hfd : findDependent env (loadModuleConfig s) (installedIds env s) id with
    | none =>
      simp only [hfd] at hdep
      simp at hdep
    | some d =>
      unfold findDependent at hfd
      obtain ⟨pr, hpr, hfst⟩ := Option.map_eq_some'.mp hfd
      have hmem := List.mem_of_find?_eq_some hpr
      have hpred := List.find?_some hpr
      simp only [Bool.and_eq_true] at hpred
      obtain ⟨⟨hen, hin⟩, hnd⟩ := hpred
      exact ⟨pr, hmem, hen, of_decide_eq_true hin, hnd⟩
  · rintro ⟨p, hmem, hen, hpin, hnd⟩
    have hsome : (env.modules.find? (fun q =>
        ((alookup (loadModuleConfig s) q.1).elim false (fun en => en.enabled))
          && decide (q.1 ∈ installedIds env s) && hasNonOptDepOn q.2 id)).isSome = true := by
      rw [List.find?_isSome]
      refine ⟨p, hmem, ?_⟩
      simp [hen, hpin, hnd]
    obtain ⟨pr, hpr⟩ := Option.isSome_iff_exists.mp hsome
    have hfd : findDependent env (loadModuleConfig s) (installedIds env s) id
        = some pr.1 := by
      unfold findDependent
      rw [hpr]
      rfl
    refine ⟨pr.1, ?_⟩
    unfold uninstallModule
    simp only [hman]
    rw [if_pos hinst, if_pos hcd]
    simp only [hfd]

/-- C2 witness: the amended iff instantiated in the two-module fixture with
both modules installed and enabled. -/
theorem claim_C2_witness :
    (∃ dep, (uninstallModule wEnv wStBoth ("database".data)).1
        = .reverseDependencyExists dep) ↔
      ∃ p ∈ wEnv.modules,
        ((alookup (loadModuleConfig wStBoth) p.1).elim false (fun en => en.enabled)) = true
        ∧ p.1 ∈ installedIds wEnv wStBoth ∧ hasNonOptDepOn p.2 ("database".data) = true :=
  (claim_C2_reverse_dependency wEnv wStBoth ("database".data) wDB (by decide) (by decide)
    (by decide)).1

/-- C3 counterexample: for a protected module (`can_disable = false`) that is
not filesystem-installed, `uninstall` warns NotInstalled instead of failing
with ProtectedModule — so "always fails with ProtectedModule regardless of the
module's installed state" is false; moreover the modules-directory wipe that
`syncModules` performs when the enabled set is empty removes an installed
protected module's directory, refuting "no code path ever removes such a
module from the installed set". -/
theorem claim_C3_counterexample :
    wProt.can_disable = false
    ∧ alookup wEnvProt.modules ("core".data) = some wProt
    ∧ (uninstallModule wEnvProt wSt0 ("core".data)).1 ≠ UninstallResult.protectedModule
    ∧ ("core".data) ∈ wStProtInst.installedDirs
    ∧ (syncModules wStProtInst).installedDirs = [] := by
  refine ⟨by decide, by decide, by decide, by decide, by decide⟩

/-- C3 (amended): for a known module with `can_disable = false`, `uninstall`
fails with ProtectedModule (mutating nothing) whenever the module is
filesystem-installed, regardless of dependents; when it is not installed the
command is a NotInstalled no-op.  `uninstall` itself never removes a protected
module, but the empty-enabled-set wipe of the modules directory can delete its
files. -/
theorem claim_C3_protected (env : Env) (s : St) (id : Str) (man : Manifest)
    (hman : alookup env.modules id = some man)
    (hcd : man.can_disable = false) :
    (id ∈ installedIds env s → uninstallModule env s id = (.protectedModule, s))
    ∧ (id ∉ installedIds env s → uninstallModule env s id = (.notInstalled, s)) := by
  constructor
  · intro hin
    unfold uninstallModule
    simp [hman, hin, hcd]
  · intro hnin
    unfold uninstallModule
    simp [hman, hnin]

/-- C3 witness: uninstalling the installed protected module fails with
ProtectedModule and leaves the state unchanged. -/
theorem claim_C3_witness :
    uninstallModule wEnvProt wStProtInst ("core".data) = (.protectedModule, wStProtInst) :=
  (claim_C3_protected wEnvProt wStProtInst ("core".data) wProt (by decide)
    (by decide)).1 (by decide)

/-- C4 counterexample: the generated outputs follow the config map's key
insertion order, not sorted order: two configs enabling the same set
{auth, database} in different key orders yield different Cargo.toml feature
lists and different aggregator files. -/
theorem claim_C4_counterexample :
    (enabledIds (loadModuleConfig wStBA)).Perm (enabledIds (loadModuleConfig wStAB))
    ∧ (syncModules wStBA).cargoToml ≠ (syncModules wStAB).cargoToml
    ∧ (syncModules wStBA).modRs ≠ (syncModules wStAB).modRs := by
  refine ⟨by decide, by decide, by decide⟩

/-- C4 (amended): the feature-flag entries and the aggregator declarations are
emitted in the config's key insertion order (the order of `enabledIds`); two
states whose configs yield the same enabled-id sequence (and equal Cargo.toml
contents) produce byte-identical generated output. -/
theorem claim_C4_emission_order (s1 s2 : St)
    (he : enabledIds (loadModuleConfig s1) = enabledIds (loadModuleConfig s2))
    (hc : s1.cargoToml = s2.cargoToml) :
    (syncModules s1).cargoToml = (syncModules s2).cargoToml
    ∧ (syncModules s1).modRs = (syncModules s2).modRs := by
  constructor
  · rw [syncModules_cargoToml, syncModules_cargoToml, he, hc]
  · rw [syncModules_modRs, syncModules_modRs, he]

/-- C4 witness: the amended determinism statement instantiated at two states
carrying the same config. -/
theorem claim_C4_witness :
    (syncModules wStBA).cargoToml = (syncModules wStBA).cargoToml
    ∧ (syncModules wStBA).modRs = (syncModules wStBA).modRs :=
  claim_C4_emission_order wStBA wStBA rfl rfl

/-- C5 counterexample: with an enabled module id containing the character `]`,
the second sync closes the `default = [...]` array at the `]` inside the
previously written flag, so two successive syncs with an unchanged persisted
config produce different Cargo.toml bytes. -/
theorem claim_C5_counterexample :
    (syncModules wStBracket).configFile = wStBracket.configFile
    ∧ (syncModules (syncModules wStBracket)).cargoToml
        ≠ (syncModules wStBracket).cargoToml := by
  refine ⟨by decide, by decide⟩

/-- C5 (amended): provided no enabled module id contains the character `]`,
calling sync twice in succession with no intervening config change produces
byte-identical Cargo.toml feature-list and aggregator-file contents both
times. -/
theorem claim_C5_sync_idempotent (s : St)
    (h : ∀ id ∈ enabledIds (loadModuleConfig s), ']' ∉ id) :
    (syncModules (syncModules s)).cargoToml = (syncModules s).cargoToml
    ∧ (syncModules (syncModules s)).modRs = (syncModules s).modRs := by
  have hcfg : loadModuleConfig (syncModules s) = loadModuleConfig s := by
    unfold loadModuleConfig
    rw [syncModules_configFile]
  have hfl := featureFlags_no_rbracket _ h
  constructor
  · rw [syncModules_cargoToml, syncModules_cargoToml, hcfg]
    exact applyCargo_idem s.cargoToml _ hfl
  · rw [syncModules_modRs, syncModules_modRs, hcfg]

/-- C5 witness: sync is idempotent on the two-module fixture config. -/
theorem claim_C5_witness :
    (syncModules (syncModules wStBA)).cargoToml = (syncModules wStBA).cargoToml
    ∧ (syncModules (syncModules wStBA)).modRs = (syncModules wStBA).modRs :=
  claim_C5_sync_idempotent wStBA (by decide)

/-- C6: whenever install or uninstall fails validation (ManifestNotFound,
AlreadyInstalled, NotInstalled, DependencyMissing, ProtectedModule, or
ReverseDependencyExists), it returns before performing any mutation: the
returned state — persisted config, build descriptor, aggregator file, and
per-module directories — is exactly the input state. -/
theorem claim_C6_no_mutation_on_failed_validation (env : Env) (s : St) (id : Str) :
    (((installModule env s id).1 = .manifestNotFound ∨
        (installModule env s id).1 = .alreadyInstalled ∨
        (∃ dep, (installModule env s id).1 = .dependencyMissing dep)) →
      (installModule env s id).2 = s)
    ∧ (((uninstallModule env s id).1 = .manifestNotFound ∨
        (uninstallModule env s id).1 = .notInstalled ∨
        (uninstallModule env s id).1 = .protectedModule ∨
        (∃ dep, (uninstallModule env s id).1 = .reverseDependencyExists dep)) →
      (uninstallModule env s id).2 = s) := by
  constructor
  · intro hfail
    rcases installModule_cases env s id with ⟨h2, _⟩ | h
    · exact h2
    · exfalso
      rcases hfail with h1 | h1 | ⟨dep, h1⟩ <;> (rw [h] at h1; cases h1)
  · intro hfail
    rcases uninstallModule_cases env s id with ⟨h2, _⟩ | h
    · exact h2
    · exfalso
      rcases hfail with h1 | h1 | h1 | ⟨dep, h1⟩ <;> (rw [h] at h1; cases h1)

/-- C6 witness: a ManifestNotFound install and a NotInstalled uninstall both
leave the fixture state untouched. -/
theorem claim_C6_witness :
    (installModule wEnv wSt0 ("nope".data)).2 = wSt0
    ∧ (uninstallModule wEnv wSt0 ("auth".data)).2 = wSt0 :=
  ⟨(claim_C6_no_mutation_on_failed_validation wEnv wSt0 ("nope".data)).1
      (Or.inl (by decide)),
   (claim_C6_no_mutation_on_failed_validation wEnv wSt0 ("auth".data)).2
      (Or.inr (Or.inl (by decide)))⟩

/-- C7 counterexample: with a per-module directory present and an empty enabled
set, `syncModules` deletes the whole modules directory — removing the
per-module source subtree, contrary to "never copies or removes any per-module
source subtree". -/
theorem claim_C7_counterexample :
    ("database".data) ∈ wStDirOnly.installedDirs
    ∧ (syncModules wStDirOnly).installedDirs = [] := by
  refine ⟨by decide, by decide⟩

/-- C7 (amended): `syncModules` never writes the config file and never copies a
per-module subtree; it leaves the per-module directories untouched whenever at
least one module is enabled, but when the enabled set is empty it deletes the
entire modules directory, all per-module subtrees included. -/
theorem claim_C7_sync_frame (s : St) :
    (syncModules s).configFile = s.configFile
    ∧ (syncModules s).installedDirs =
        (if (enabledIds (loadModuleConfig s)).length = 0 then [] else s.installedDirs) :=
  ⟨syncModules_configFile s, syncModules_installedDirs s⟩

/-- C8: starting from a fresh project (no config file, no installed module
directories), after any sequence of commands the persisted config has an entry
for X exactly when a completed `install X` has occurred and has not since been
followed by a completed `uninstall X`; no other operation creates or removes
the entry. -/
theorem claim_C8_config_entry_lifecycle (env : Env) (X : Str) (s0 : St) (cmds : List Cmd)
    (h1 : s0.configFile = none) (h2 : s0.installedDirs = []) :
    hasEntry X (runCmds env s0 cmds) = runJustified env X s0 cmds false := by
  have hInv : Inv s0 := by
    intro d hd
    rw [h2] at hd
    exact absurd hd (List.not_mem_nil d)
  have hb : hasEntry X s0 = false := by
    simp [hasEntry, h1]
  have hrun := runCmds_hasEntry env X cmds s0 hInv
  rwa [hb] at hrun

/-- C8 witness: the lifecycle bookkeeping agrees with the persisted config over
a concrete install/install/uninstall trace from the fresh fixture project. -/
theorem claim_C8_witness :
    hasEntry ("auth".data)
        (runCmds wEnv wSt0
          [Cmd.install ("database".data), Cmd.install ("auth".data),
            Cmd.uninstall ("auth".data)]) =
      runJustified wEnv ("auth".data) wSt0
        [Cmd.install ("database".data), Cmd.install ("auth".data),
          Cmd.uninstall ("auth".data)] false :=
  claim_C8_config_entry_lifecycle wEnv ("auth".data) wSt0
    [Cmd.install ("database".data), Cmd.install ("auth".data),
      Cmd.uninstall ("auth".data)] (by decide) (by decide)

/-- C9: for an installed module: configuring an unknown key fails with
ConfigKeyInvalid persisting nothing; configuring a number-typed key with a
value `parseFloat` rejects fails with ValueCoercionError persisting nothing;
otherwise the coerced value is stored under the module's config map and the
whole config is persisted. -/
theorem claim_C9_configure (env : Env) (s : St) (id key value : Str) (man : Manifest)
    (hman : alookup env.modules id = some man)
    (hinst : id ∈ installedIds env s) :
    (alookup man.config_schema key = none →
      configureModule env s id key value = (.configKeyInvalid, s))
    ∧ (∀ sch, alookup man.config_schema key = some sch →
        sch.field_type = "number".data → jsParseFloat value = none →
        configureModule env s id key value = (.valueCoercionError, s))
    ∧ (∀ sch v, alookup man.config_schema key = some sch →
        coerceValue sch.field_type value = some v →
        (configureModule env s id key value).1 = .configured
        ∧ (configureModule env s id key value).2 = { s with configFile := some (.wellFormed
            (setConfigValue (ensureEntry (loadModuleConfig s) id) id key v)) }
        ∧ ∃ e, alookup (setConfigValue (ensureEntry (loadModuleConfig s) id) id key v) id
              = some e ∧ alookup e.config key = some v) := by
  refine ⟨?_, ?_, ?_⟩
  · intro hk
    unfold configureModule
    simp [hman, hinst, hk]
  · intro sch hk hnum hpf
    have hco : coerceValue sch.field_type value = none := by
      rw [hnum]
      unfold coerceValue
      rw [if_neg (by decide : ¬ (("number".data : Str) = "boolean".data)), if_pos rfl, hpf]
      rfl
    unfold configureModule
    simp [hman, hinst, hk, hco]
  · intro sch v hk hco
    refine ⟨?_, ?_, ?_⟩
    · unfold configureModule
      simp [hman, hinst, hk, hco]
    · unfold configureModule
      simp [hman, hinst, hk, hco]
    · have hself := alookup_ensureEntry_self (loadModuleConfig s) id
      obtain ⟨e0, he0⟩ := Option.isSome_iff_exists.mp hself
      refine ⟨{ e0 with config := putKV e0.config key v }, ?_, ?_⟩
      · rw [alookup_setConfigValue]
        simp [he0]
      · exact alookup_putKV_self e0.config key v

/-- C9 witness: on the installed `database` fixture, an unknown key fails
ConfigKeyInvalid, a non-numeric value for the number-typed `port` key fails
ValueCoercionError, and a numeric value is accepted. -/
theorem claim_C9_witness :
    configureModule wEnv wStDB ("database".data) ("nope".data) ("1".data)
        = (.configKeyInvalid, wStDB)
    ∧ configureModule wEnv wStDB ("database".data) ("port".data) ("notanumber".data)
        = (.valueCoercionError, wStDB)
    ∧ (configureModule wEnv wStDB ("database".data) ("port".data) ("5432".data)).1
        = .configured :=
  ⟨(claim_C9_configure wEnv wStDB ("database".data) ("nope".data) ("1".data) wDB
      (by decide) (by decide)).1 (by decide),
   (claim_C9_configure wEnv wStDB ("database".data) ("port".data) ("notanumber".data) wDB
      (by decide) (by decide)).2.1 { field_type := "number".data, required := true }
      (by decide) (by decide) (by decide),
   ((claim_C9_configure wEnv wStDB ("database".data) ("port".data) ("5432".data) wDB
      (by decide) (by decide)).2.2 { field_type := "number".data, required := true }
      (Value.num ("5432".data)) (by decide) (by decide)).1⟩

/-- C10: when the config file holds malformed JSON, loading yields the empty
map (after logging) instead of aborting, the enabled set is empty, and a sync
in that state regenerates both artifacts exactly as it would with no config
file at all — from the empty enabled set. -/
theorem claim_C10_malformed_config (s : St) (h : s.configFile = some ConfigFile.malformed) :
    loadModuleConfig s = []
    ∧ enabledIds (loadModuleConfig s) = []
    ∧ (syncModules s).cargoToml = (syncModules { s with configFile := none }).cargoToml
    ∧ (syncModules s).modRs = (syncModules { s with configFile := none }).modRs
    ∧ (syncModules s).installedDirs
        = (syncModules { s with configFile := none }).installedDirs := by
  have hl : loadModuleConfig s = [] := by
    simp [loadModuleConfig, h]
  have hl2 : loadModuleConfig { s with configFile := none } = [] := rfl
  refine ⟨hl, by rw [hl]; rfl, ?_, ?_, ?_⟩
  · rw [syncModules_cargoToml, syncModules_cargoToml, hl, hl2]
  · rw [syncModules_modRs, syncModules_modRs, hl, hl2]
  · rw [syncModules_installedDirs, syncModules_installedDirs, hl, hl2]

/-- C10 witness: the malformed-config fixture loads as the empty map and syncs
to the same Cargo.toml as the missing-config state. -/
theorem claim_C10_witness :
    loadModuleConfig wStMal = []
    ∧ (syncModules wStMal).cargoToml
        = (syncModules { wStMal with configFile := none }).cargoToml :=
  ⟨(claim_C10_malformed_config wStMal (by decide)).1,
   (claim_C10_malformed_config wStMal (by decide)).2.2.1⟩

end ModuleCli
